import Mathlib

/-!
A verification development for the `sim_exchange` trading-game server.

The server (Node.js) consists of a matching engine (`matchingEngine.js`),
data models (`models.js`: `Player`, `Order`, `Trade`, `OrderBook`, `Game`)
and a game manager.  This file gives a shallow embedding of those parts in
Lean and proves properties of the embedded functions.

Modelling conventions:
* JS numbers used for cash, prices and quantities are embedded as `Int`
  (the program only ever does integer arithmetic on them in the paths
  modelled here); a `null` price is `Option.none`, and `priceVal` mirrors
  JS's numeric coercion of `null` to `0`.
* JS objects used as product→count dictionaries are embedded as ordered
  association lists (`List (String × Int)`); `objGet`/`objSet` mirror
  `o[k] || 0` reads and `o[k] = v` writes (replace in place, append new
  keys at the end, as JS objects do).
* The mutable stores (`dataStore._players`, …) are embedded as maps
  `String → Option Player`; in-place mutation of a shared object becomes
  a functional update at its id, applied in the source's statement order,
  which reproduces JS aliasing behaviour.
* `Array.prototype.sort` is stable; for a total transitive comparator a
  stable sort is uniquely determined by its input, so it is embedded as
  `List.insertionSort` over the comparator's `cmp ≤ 0` relation.
* Timestamps (`Date.now()` / `new Date().toISOString()`) are embedded as
  an explicit `now : Nat` (milliseconds) parameter threaded to the code
  that reads the clock.
* The unbounded `while` loop of `MatchingEngine.matchOrder` is embedded
  with an explicit fuel parameter; the `Bool` in the result records
  whether the loop exited by itself (`true`) or ran out of fuel
  (`false`, i.e. the JS loop would still be running).
-/

namespace SimX

/-- `models.js` `Player`: the per-participant ledger state mutated by the
engine (identity, cash, inventory, open-order ids, trade history). -/
structure Player where
  playerId : String
  cash : Int
  inventory : List (String × Int)
  openOrderIds : List String
  tradeHistory : List String
deriving DecidableEq

/-- `models.js` `Order`: identity plus mutable fill state. -/
structure Order where
  orderId : String
  playerId : String
  product : String
  side : String
  orderType : String
  quantity : Int
  remainingQuantity : Int
  price : Option Int
  status : String
  createdAt : Nat
deriving DecidableEq

/-- `models.js` `Trade`: immutable record of one execution. -/
structure Trade where
  tradeId : String
  buyOrderId : String
  sellOrderId : String
  buyerId : String
  sellerId : String
  product : String
  quantity : Int
  price : Int
  value : Int
  executedAt : Nat
deriving DecidableEq

/-- JS dictionary read `obj[k] || 0`. -/
def objGet (inv : List (String × Int)) (k : String) : Int :=
  ((inv.find? (fun kv => kv.1 == k)).map (fun kv => kv.2)).getD 0

/-- JS dictionary write `obj[k] = v`: overwrite in place if the key is
present, otherwise append the new key at the end. -/
def objSet (inv : List (String × Int)) (k : String) (v : Int) : List (String × Int) :=
  if inv.any (fun kv => kv.1 == k) then
    inv.map (fun kv => if kv.1 == k then (k, v) else kv)
  else
    inv ++ [(k, v)]

/-- JS numeric coercion of an order's price (`null` reads as `0`). -/
def priceVal (o : Order) : Int :=
  o.price.getD 0

/-- `o.status === 'open' || o.status === 'partial'`, the resting-order
filter used throughout `models.js`. -/
def isOpenOrder (o : Order) : Bool :=
  o.status == "open" || o.status == "partial"

/-- The bids comparator of `OrderBook.addOrder`
(`(a, b) => b.price - a.price`, ties by ascending `createdAt`), as the
relation `cmp a b ≤ 0`: descending price, then ascending creation time. -/
def bidLE (a b : Order) : Prop :=
  if priceVal a = priceVal b then a.createdAt ≤ b.createdAt
  else priceVal b < priceVal a

/-- The asks comparator of `OrderBook.addOrder`
(`(a, b) => a.price - b.price`, ties by ascending `createdAt`), as the
relation `cmp a b ≤ 0`: ascending price, then ascending creation time. -/
def askLE (a b : Order) : Prop :=
  if priceVal a = priceVal b then a.createdAt ≤ b.createdAt
  else priceVal a < priceVal b

instance : DecidableRel bidLE := fun a b => by
  unfold bidLE; infer_instance

instance : DecidableRel askLE := fun a b => by
  unfold askLE; infer_instance

instance : IsTotal Order bidLE :=
  ⟨by
    intro a b
    unfold bidLE
    by_cases h : priceVal a = priceVal b
    · rw [if_pos h, if_pos h.symm]; omega
    · rw [if_neg h, if_neg (Ne.symm h)]; omega⟩

instance : IsTrans Order bidLE :=
  ⟨by
    intro a b c hab hbc
    unfold bidLE at *
    by_cases h1 : priceVal a = priceVal b
    · rw [if_pos h1] at hab
      by_cases h2 : priceVal b = priceVal c
      · rw [if_pos h2] at hbc
        rw [if_pos (h1.trans h2)]
        omega
      · rw [if_neg h2] at hbc
        rw [if_neg (by omega)]
        omega
    · rw [if_neg h1] at hab
      by_cases h2 : priceVal b = priceVal c
      · rw [if_pos h2] at hbc
        rw [if_neg (by omega)]
        omega
      · rw [if_neg h2] at hbc
        rw [if_neg (by omega)]
        omega⟩

instance : IsTotal Order askLE :=
  ⟨by
    intro a b
    unfold askLE
    by_cases h : priceVal a = priceVal b
    · rw [if_pos h, if_pos h.symm]; omega
    · rw [if_neg h, if_neg (Ne.symm h)]; omega⟩

instance : IsTrans Order askLE :=
  ⟨by
    intro a b c hab hbc
    unfold askLE at *
    by_cases h1 : priceVal a = priceVal b
    · rw [if_pos h1] at hab
      by_cases h2 : priceVal b = priceVal c
      · rw [if_pos h2] at hbc
        rw [if_pos (h1.trans h2)]
        omega
      · rw [if_neg h2] at hbc
        rw [if_neg (by omega)]
        omega
    · rw [if_neg h1] at hab
      by_cases h2 : priceVal b = priceVal c
      · rw [if_pos h2] at hbc
        rw [if_neg (by omega)]
        omega
      · rw [if_neg h2] at hbc
        rw [if_neg (by omega)]
        omega⟩

/-- `models.js` `OrderBook`: two arrays of resting orders per product. -/
structure OrderBook where
  product : String
  bids : List Order
  asks : List Order
deriving DecidableEq

/-- `OrderBook.addOrder`: push the order onto its side and re-sort the
side with the stable JS sort (embedded as `insertionSort`). -/
def OrderBook.addOrder (book : OrderBook) (o : Order) : OrderBook :=
  if o.side = "buy" then
    { book with bids := (book.bids ++ [o]).insertionSort bidLE }
  else
    { book with asks := (book.asks ++ [o]).insertionSort askLE }

/-- `OrderBook.removeOrder`: drop the order with the given id from both
sides. -/
def OrderBook.removeOrder (book : OrderBook) (orderId : String) : OrderBook :=
  { book with
    bids := book.bids.filter (fun o => o.orderId != orderId),
    asks := book.asks.filter (fun o => o.orderId != orderId) }

/-- `OrderBook.getBestBid`: first bid with status open or partial. -/
def OrderBook.getBestBid (book : OrderBook) : Option Order :=
  (book.bids.filter isOpenOrder).head?

/-- `OrderBook.getBestAsk`: first ask with status open or partial. -/
def OrderBook.getBestAsk (book : OrderBook) : Option Order :=
  (book.asks.filter isOpenOrder).head?

/-- `OrderBook.cleanup`: keep only open/partial orders on both sides. -/
def OrderBook.cleanup (book : OrderBook) : OrderBook :=
  { book with
    bids := book.bids.filter isOpenOrder,
    asks := book.asks.filter isOpenOrder }

/-- Strictly-better-than for two bids: higher price, or equal price and
strictly earlier creation. -/
def strictlyBetterBid (a b : Order) : Prop :=
  priceVal b < priceVal a ∨ (priceVal a = priceVal b ∧ a.createdAt < b.createdAt)

/-- Strictly-better-than for two asks: lower price, or equal price and
strictly earlier creation. -/
def strictlyBetterAsk (a b : Order) : Prop :=
  priceVal a < priceVal b ∨ (priceVal a = priceVal b ∧ a.createdAt < b.createdAt)

/-- The player store `dataStore._players`, keyed by player id. -/
def Players : Type := String → Option Player

/-- In-place mutation of the shared `Player` object with the given id
(all engine code reaches a player through `dataStore.getPlayer`). -/
def updatePlayer (ps : Players) (pid : String) (f : Player → Player) : Players :=
  fun q => if q = pid then (ps q).map f else ps q

/-- `Player.addOrder`: record an open order id (no duplicates). -/
def Player.addOrder (oid : String) (p : Player) : Player :=
  if p.openOrderIds.contains oid then p
  else { p with openOrderIds := p.openOrderIds ++ [oid] }

/-- `Player.removeOrder`: drop an order id from the open set. -/
def Player.removeOrder (oid : String) (p : Player) : Player :=
  { p with openOrderIds := p.openOrderIds.filter (fun i => i != oid) }

/-- `Player.addTrade`: append a trade id to the history. -/
def Player.addTrade (tid : String) (p : Player) : Player :=
  { p with tradeHistory := p.tradeHistory ++ [tid] }

/-- `Order.fill`: deduct the filled quantity and recompute the status
(`filled` when nothing remains, else `partial`). -/
def Order.fill (o : Order) (quantity : Int) : Order :=
  let r := o.remainingQuantity - quantity
  { o with
    remainingQuantity := r,
    status := if r ≤ 0 then "filled" else "partial" }

/-- `Order.cancel`: mark the order cancelled. -/
def Order.cancel (o : Order) : Order :=
  { o with status := "cancelled" }

/-- Result of `MatchingEngine.executeTrade`: the updated player store,
the two (possibly filled) orders, and the trade record (`none` mirrors
the JS `return null` paths). -/
structure ExecResult where
  players : Players
  incoming : Order
  resting : Order
  trade : Option Trade

/-- The buyer's ledger mutation inside `executeTrade`:
`buyer.cash -= tradeValue; buyer.inventory[product] += quantity`. -/
def buyerSettle (product : String) (quantity tradeValue : Int) (b : Player) : Player :=
  { b with
    cash := b.cash - tradeValue,
    inventory := objSet b.inventory product (objGet b.inventory product + quantity) }

/-- The seller's ledger mutation inside `executeTrade`:
`seller.cash += tradeValue; seller.inventory[product] -= quantity`. -/
def sellerSettle (product : String) (quantity tradeValue : Int) (s : Player) : Player :=
  { s with
    cash := s.cash + tradeValue,
    inventory := objSet s.inventory product (objGet s.inventory product - quantity) }

/-- The settlement block of `MatchingEngine.executeTrade` (its effect on
the player store): debit buyer cash and credit inventory, credit seller
cash and debit inventory, append the trade id to both histories, and
remove each order from its owner's open set when it became filled.
`buyOrder2`/`sellOrder2` are the orders after the fill. -/
def settleChain (ps : Players) (buyerId sellerId product : String)
    (quantity price : Int) (tradeId : String) (buyOrder2 sellOrder2 : Order) : Players :=
  let tradeValue := quantity * price
  let ps1 := updatePlayer ps buyerId (buyerSettle product quantity tradeValue)
  let ps2 := updatePlayer ps1 sellerId (sellerSettle product quantity tradeValue)
  let ps3 := updatePlayer ps2 buyerId (Player.addTrade tradeId)
  let ps4 := updatePlayer ps3 sellerId (Player.addTrade tradeId)
  let ps5 := if buyOrder2.status = "filled" then
      updatePlayer ps4 buyerId (Player.removeOrder buyOrder2.orderId)
    else ps4
  if sellOrder2.status = "filled" then
    updatePlayer ps5 sellerId (Player.removeOrder sellOrder2.orderId)
  else ps5

/-- `MatchingEngine.executeTrade`.  Quantity is the smaller remaining
quantity, price is the resting order's; buyer and seller are identified
from the incoming side; resources are re-checked at execution time
(returning `none` without any mutation on failure); settlement then
debits/credits cash and inventory, records the trade, fills both orders
and removes filled orders from their owners' open sets. -/
def executeTrade (ps : Players) (incoming resting : Order)
    (tradeId : String) (now : Nat) : ExecResult :=
  let quantity := min incoming.remainingQuantity resting.remainingQuantity
  let price := priceVal resting
  let buyOrder := if incoming.side = "buy" then incoming else resting
  let sellOrder := if incoming.side = "buy" then resting else incoming
  let buyerId := buyOrder.playerId
  let sellerId := sellOrder.playerId
  match ps buyerId, ps sellerId with
  | some buyer, some seller =>
    let tradeValue := quantity * price
    if buyer.cash < tradeValue then
      ⟨ps, incoming, resting, none⟩
    else if objGet seller.inventory incoming.product < quantity then
      ⟨ps, incoming, resting, none⟩
    else
      let trade : Trade :=
        { tradeId := tradeId
          buyOrderId := buyOrder.orderId
          sellOrderId := sellOrder.orderId
          buyerId := buyerId
          sellerId := sellerId
          product := incoming.product
          quantity := quantity
          price := price
          value := quantity * price
          executedAt := now }
      let buyOrder2 := buyOrder.fill quantity
      let sellOrder2 := sellOrder.fill quantity
      let ps6 := settleChain ps buyerId sellerId incoming.product quantity price
        tradeId buyOrder2 sellOrder2
      let incoming2 := if incoming.side = "buy" then buyOrder2 else sellOrder2
      let resting2 := if incoming.side = "buy" then sellOrder2 else buyOrder2
      ⟨ps6, incoming2, resting2, some trade⟩
  | _, _ => ⟨ps, incoming, resting, none⟩

/-- The JS engine mutates the resting order through the reference the
book holds; in the embedding the book's copy is rewritten by id. -/
def replaceOrderInBook (book : OrderBook) (o : Order) : OrderBook :=
  { book with
    bids := book.bids.map (fun b => if b.orderId == o.orderId then o else b),
    asks := book.asks.map (fun a => if a.orderId == o.orderId then o else a) }

/-- State carried around `MatchingEngine.matchOrder`'s loop. -/
structure MatchState where
  players : Players
  book : OrderBook
  incoming : Order

/-- `MatchingEngine.matchOrder`'s `while` loop, with fuel.  While the
incoming order has remaining quantity: peek the best opposing order
(break when none), break on self-trade, break on limit-price
incompatibility, otherwise execute one trade and clean the book up;
the loop then repeats — also when `executeTrade` returned `null`.
The `Bool` is `true` when the loop exited, `false` when fuel ran out
(the JS loop would still be running). -/
def matchLoop (now : Nat) : Nat → MatchState → List Trade → MatchState × List Trade × Bool
  | 0, s, ts => (s, ts, false)
  | n + 1, s, ts =>
    if s.incoming.remainingQuantity ≤ 0 then (s, ts, true)
    else
      match (if s.incoming.side = "buy" then s.book.getBestAsk else s.book.getBestBid) with
      | none => (s, ts, true)
      | some opp =>
        if opp.playerId = s.incoming.playerId then (s, ts, true)
        else if s.incoming.orderType = "limit" ∧ s.incoming.side = "buy"
            ∧ priceVal s.incoming < priceVal opp then (s, ts, true)
        else if s.incoming.orderType = "limit" ∧ s.incoming.side = "sell"
            ∧ priceVal s.incoming > priceVal opp then (s, ts, true)
        else
          let r := executeTrade s.players s.incoming opp "" now
          let ts2 := match r.trade with
            | some t => ts ++ [t]
            | none => ts
          let book2 := (replaceOrderInBook s.book r.resting).cleanup
          matchLoop now n ⟨r.players, book2, r.incoming⟩ ts2

/-- The slice of `config.json` consumed by `MatchingEngine.submitOrder`. -/
structure Config where
  products : List String
  minOrderSize : Int
  maxOrderSize : Int

/-- The `Order` constructor as called by `submitOrder` (fresh id from
`uuidv4()` and `createdAt` from the wall clock are explicit inputs). -/
def Order.create (orderId playerId product side orderType : String)
    (quantity : Int) (price : Option Int) (now : Nat) : Order :=
  { orderId := orderId
    playerId := playerId
    product := product
    side := side
    orderType := orderType
    quantity := quantity
    remainingQuantity := quantity
    price := price
    status := "open"
    createdAt := now }

/-- The `Trade` constructor (`executedAt` read from the wall clock). -/
def Trade.create (tradeId buyOrderId sellOrderId buyerId sellerId product : String)
    (quantity price : Int) (now : Nat) : Trade :=
  { tradeId := tradeId
    buyOrderId := buyOrderId
    sellOrderId := sellOrderId
    buyerId := buyerId
    sellerId := sellerId
    product := product
    quantity := quantity
    price := price
    value := quantity * price
    executedAt := now }

/-- Inner loop of `MatchingEngine.estimateMarketBuyCost`: walk the open
asks in book order, consuming quantity at each order's price; returns
the uncovered remainder and the accumulated cost. -/
def estimateWalk : List Order → Int → Int → Int × Int
  | [], remaining, cost => (remaining, cost)
  | ask :: rest, remaining, cost =>
    if remaining ≤ 0 then (remaining, cost)
    else
      let fillQty := min remaining ask.remainingQuantity
      estimateWalk rest (remaining - fillQty) (cost + fillQty * priceVal ask)

/-- `MatchingEngine.estimateMarketBuyCost`: cost of walking the visible
open asks, plus `100` per unit of quantity that is not covered. -/
def estimateMarketBuyCost (book : OrderBook) (quantity : Int) : Int :=
  let asks := book.asks.filter isOpenOrder
  let rc := estimateWalk asks quantity 0
  if rc.1 > 0 then rc.2 + rc.1 * 100 else rc.2

/-- The pre-reservation cash requirement of `submitOrder` for a buy:
`qty × price` for a limit order, the market estimate otherwise. -/
def requiredCashFor (book : OrderBook) (orderType : String)
    (quantity : Int) (price : Option Int) : Int :=
  if orderType = "limit" then quantity * price.getD 0
  else estimateMarketBuyCost book quantity

/-- Result of `MatchingEngine.submitOrder` together with the state it
leaves behind (player store and the product's book). -/
structure SubmitResult where
  order : Option Order
  trades : List Trade
  errors : List String
  players : Players
  book : OrderBook

/-- `MatchingEngine.submitOrder`: validation (product, quantity bounds,
limit price, pre-reservation resources), then the matching loop, then
remainder handling — a leftover limit order rests at its price, a
leftover market order is converted to an aggressive limit
(price `999999` for a buy, `1` for a sell) and rests.  Returns `none`
when the player id is unknown or the matching loop did not finish
within the given fuel (the JS call would not return). -/
def submitOrder (cfg : Config) (fuel : Nat) (ps : Players) (book : OrderBook)
    (playerId product side orderType : String) (quantity : Int)
    (price : Option Int) (newOrderId : String) (now : Nat) : Option SubmitResult :=
  match ps playerId with
  | none => none
  | some player =>
    if ¬ (product ∈ cfg.products) then
      some ⟨none, [], ["Invalid product: " ++ product], ps, book⟩
    else if quantity < cfg.minOrderSize ∨ quantity > cfg.maxOrderSize then
      some ⟨none, [], ["Quantity out of configured bounds"], ps, book⟩
    else if orderType = "limit" ∧ (price.isNone ∨ price.getD 0 ≤ 0) then
      some ⟨none, [], ["Limit orders require a positive price"], ps, book⟩
    else if side = "buy" ∧ player.cash < requiredCashFor book orderType quantity price then
      some ⟨none, [], ["Insufficient cash"], ps, book⟩
    else if side ≠ "buy" ∧ objGet player.inventory product < quantity then
      some ⟨none, [], ["Insufficient inventory"], ps, book⟩
    else
      let order := Order.create newOrderId playerId product side orderType quantity price now
      match matchLoop now fuel ⟨ps, book, order⟩ [] with
      | (s, trades, true) =>
        let order1 := s.incoming
        if order1.remainingQuantity > 0 ∧ orderType = "limit" then
          let book2 := s.book.addOrder order1
          let ps2 := updatePlayer s.players playerId (Player.addOrder order1.orderId)
          some ⟨some order1, trades, [], ps2, book2⟩
        else if order1.remainingQuantity > 0 ∧ orderType = "market" then
          let order2 := { order1 with
            price := some (if side = "buy" then 999999 else 1),
            orderType := "limit" }
          let book2 := s.book.addOrder order2
          let ps2 := updatePlayer s.players playerId (Player.addOrder order2.orderId)
          some ⟨some order2, trades, [], ps2, book2⟩
        else
          some ⟨some order1, trades, [], s.players, s.book⟩
      | (_, _, false) => none

/-- State touched by `MatchingEngine.cancelOrder`: the order store, the
per-product books, and the player store. -/
structure CancelState where
  orders : String → Option Order
  books : String → OrderBook
  players : Players

/-- Result of `MatchingEngine.cancelOrder`. -/
structure CancelResult where
  success : Bool
  error : Option String
  state : CancelState

/-- `MatchingEngine.cancelOrder`: unknown id → not-found error; wrong
requester → not-owner error; filled or cancelled order → already-terminal
error (all three without any state change); otherwise remove the order
from its product's book, mark it cancelled, and drop it from the owner's
open-order set. -/
def cancelOrder (st : CancelState) (orderId playerId : String) : CancelResult :=
  match st.orders orderId with
  | none => ⟨false, some "Order not found", st⟩
  | some order =>
    if order.playerId ≠ playerId then
      ⟨false, some "Not your order", st⟩
    else if order.status = "filled" ∨ order.status = "cancelled" then
      ⟨false, some ("Order already " ++ order.status), st⟩
    else
      let books2 := fun p =>
        if p = order.product then (st.books p).removeOrder orderId else st.books p
      let order2 := order.cancel
      let players2 := updatePlayer st.players playerId (Player.removeOrder orderId)
      let orders2 := fun oid => if oid = orderId then some order2 else st.orders oid
      ⟨true, none, ⟨orders2, books2, players2⟩⟩

/-- Accumulator pass of `Player.getCompleteSets`: `minSets` starts at
`Infinity` (modelled as `none`) and takes the minimum of
`Math.floor(available / required)` over the recipe entries. -/
def minSetsAux (inventory : List (String × Int)) :
    List (String × Int) → Option Int → Option Int
  | [], acc => acc
  | kv :: rest, acc =>
    let v := Int.fdiv (objGet inventory kv.1) kv.2
    let acc2 := match acc with
      | none => some v
      | some m => some (min m v)
    minSetsAux inventory rest acc2

/-- `Player.getCompleteSets`: the minimum over recipe entries of
`⌊inventory[p] / recipe[p]⌋` (`0` for an empty recipe). -/
def getCompleteSets (inventory setRecipe : List (String × Int)) : Int :=
  (minSetsAux inventory setRecipe none).getD 0

/-- Sum `Σ quantity × (scrapValues[product] || 0)` over the entries of a
JS inventory object (`Player.getInventoryScrapValue`). -/
def inventoryScrapValue (inventory scrapValues : List (String × Int)) : Int :=
  inventory.foldl (fun acc kv => acc + kv.2 * objGet scrapValues kv.1) 0

/-- The `pnlBreakdown` object produced by `Player.calculateFinalScore`. -/
structure ScoreBreakdown where
  completeSets : Int
  setsValue : Int
  scrapValue : Int
  totalScore : Int
  pnl : Int
deriving DecidableEq

/-- `Player.calculateFinalScore`: form complete sets, value the leftover
inventory at scrap prices, and add cash; `pnl` is measured against the
initial cash plus the initial inventory's scrap value. -/
def calculateFinalScore (cash : Int) (inventory : List (String × Int))
    (initialCash : Int) (initialInventory : List (String × Int))
    (scrapValues : List (String × Int)) (setValue : Int)
    (setRecipe : List (String × Int)) : ScoreBreakdown :=
  let completeSets := getCompleteSets inventory setRecipe
  let remainingInventory := setRecipe.foldl
    (fun r kv => objSet r kv.1 (objGet r kv.1 - completeSets * kv.2)) inventory
  let scrapValue := inventoryScrapValue remainingInventory scrapValues
  let setsValue := completeSets * setValue
  let totalScore := cash + setsValue + scrapValue
  { completeSets := completeSets
    setsValue := setsValue
    scrapValue := scrapValue
    totalScore := totalScore
    pnl := totalScore - (initialCash + inventoryScrapValue initialInventory scrapValues) }

/-- One leaderboard row of `GameManager.endGame` (identity, score, and
the rank filled in after sorting). -/
structure LBEntry where
  playerId : String
  totalScore : Int
  rank : Nat
deriving DecidableEq

/-- The comparator `(a, b) => b.totalScore - a.totalScore` of
`GameManager.endGame`, as the relation `cmp a b ≤ 0`. -/
def scoreDescLE (a b : LBEntry) : Prop :=
  b.totalScore ≤ a.totalScore

instance : DecidableRel scoreDescLE := fun a b => by
  unfold scoreDescLE; infer_instance

instance : IsTotal LBEntry scoreDescLE :=
  ⟨by intro a b; unfold scoreDescLE; omega⟩

instance : IsTrans LBEntry scoreDescLE :=
  ⟨by intro a b c hab hbc; unfold scoreDescLE at *; omega⟩

/-- The stable descending sort on total score used by
`GameManager.endGame`. -/
def sortedByScore (entries : List LBEntry) : List LBEntry :=
  entries.insertionSort scoreDescLE

/-- `GameManager.endGame`'s leaderboard: sort by total score descending
(stable) and assign ranks `1…N` in order. -/
def endGameLeaderboard (entries : List LBEntry) : List LBEntry :=
  ((sortedByScore entries).enum).map (fun ie => { ie.2 with rank := ie.1 + 1 })

/-- A result of the `minSets` loop is a lower bound for every recipe
entry's floor-quotient, and for the starting accumulator. -/
theorem minSetsAux_le (inv : List (String × Int)) :
    ∀ (recipe : List (String × Int)) (acc : Option Int) (k : Int),
      minSetsAux inv recipe acc = some k →
      (∀ kv ∈ recipe, k ≤ Int.fdiv (objGet inv kv.1) kv.2) ∧
      (∀ m, acc = some m → k ≤ m) := by
  intro recipe
  induction recipe with
  | nil =>
    intro acc k h
    refine ⟨fun kv hkv => absurd hkv (List.not_mem_nil kv), fun m hm => ?_⟩
    rw [hm] at h
    simp only [minSetsAux, Option.some.injEq] at h
    omega
  | cons kv rest ih =>
    intro acc k h
    simp only [minSetsAux] at h
    cases acc with
    | none =>
      have hih := ih (some (Int.fdiv (objGet inv kv.1) kv.2)) k h
      have hk : k ≤ Int.fdiv (objGet inv kv.1) kv.2 := hih.2 _ rfl
      refine ⟨?_, fun m hm => by cases hm⟩
      intro kv' hkv'
      rcases List.mem_cons.mp hkv' with heq | hmem
      · rw [heq]; exact hk
      · exact hih.1 kv' hmem
    | some m =>
      have hih := ih (some (min m (Int.fdiv (objGet inv kv.1) kv.2))) k h
      have hk : k ≤ min m (Int.fdiv (objGet inv kv.1) kv.2) := hih.2 _ rfl
      refine ⟨?_, fun m' hm' => ?_⟩
      · intro kv' hkv'
        rcases List.mem_cons.mp hkv' with heq | hmem
        · rw [heq]; omega
        · exact hih.1 kv' hmem
      · have : m' = m := by
          simpa using hm'.symm
        omega

/-- A result of the `minSets` loop is attained: it is the starting
accumulator or one of the recipe entries' floor-quotients. -/
theorem minSetsAux_attained (inv : List (String × Int)) :
    ∀ (recipe : List (String × Int)) (acc : Option Int) (k : Int),
      minSetsAux inv recipe acc = some k →
      (acc = some k) ∨ (∃ kv ∈ recipe, k = Int.fdiv (objGet inv kv.1) kv.2) := by
  intro recipe
  induction recipe with
  | nil =>
    intro acc k h
    left
    simpa [minSetsAux] using h
  | cons kv rest ih =>
    intro acc k h
    simp only [minSetsAux] at h
    cases acc with
    | none =>
      rcases ih (some (Int.fdiv (objGet inv kv.1) kv.2)) k h with hacc | ⟨kv', hkv', hk⟩
      · right
        exact ⟨kv, List.mem_cons_self kv rest, by simpa using hacc.symm⟩
      · exact Or.inr ⟨kv', List.mem_cons_of_mem kv hkv', hk⟩
    | some m =>
      rcases ih (some (min m (Int.fdiv (objGet inv kv.1) kv.2))) k h with hacc | ⟨kv', hkv', hk⟩
      · have hkmin : k = min m (Int.fdiv (objGet inv kv.1) kv.2) := by
          simpa using hacc.symm
        rcases le_total m (Int.fdiv (objGet inv kv.1) kv.2) with hle | hle
        · left
          rw [hkmin, min_eq_left hle]
        · right
          exact ⟨kv, List.mem_cons_self kv rest, by rw [hkmin, min_eq_right hle]⟩
      · exact Or.inr ⟨kv', List.mem_cons_of_mem kv hkv', hk⟩

/-- The `minSets` loop never returns `Infinity` once at least one entry
was folded in. -/
theorem minSetsAux_isSome (inv : List (String × Int)) :
    ∀ (recipe : List (String × Int)) (m : Int),
      ∃ k, minSetsAux inv recipe (some m) = some k := by
  intro recipe
  induction recipe with
  | nil => intro m; exact ⟨m, rfl⟩
  | cons kv rest ih =>
    intro m
    simp only [minSetsAux]
    exact ih (min m (Int.fdiv (objGet inv kv.1) kv.2))

/-- The slice of `Game` consumed by `Game.getRemainingTime` (`startTime`
in wall-clock milliseconds, `gameDuration` in seconds). -/
structure Game where
  status : String
  startTime : Option Int
  gameDuration : Int

/-- `Game.getRemainingTime`: the full configured duration while the game
is not running (or has no start time); otherwise
`max(0, duration − (now − start) / 1000)`. -/
def getRemainingTime (g : Game) (now : Int) : ℚ :=
  if g.status ≠ "running" ∨ g.startTime.isNone then (g.gameDuration : ℚ)
  else
    let start := g.startTime.getD 0
    let elapsed : ℚ := ((now - start : Int) : ℚ) / 1000
    max 0 ((g.gameDuration : ℚ) - elapsed)

/-- C7: `getCompleteSets` is the minimum over recipe entries of
`⌊inventory[p] / recipe[p]⌋` (0 on an empty recipe); on the §8
configuration, cash 20 with inventory {bread 2, veggies 2, cheese 1,
meat 1} scores 1 complete set worth 30, scrap 6 and total 56 (pnl −64
against initial cash 100 plus initial scrap 20); and the final
leaderboard is the stable descending sort on total score with ranks
1…N assigned in order (ties keep admission order) and the same
(player, score) multiset. -/
theorem C7_scoring_leaderboard (inv recipe : List (String × Int))
    (entries : List LBEntry) (a b : LBEntry) (i : Nat) :
    (recipe = [] → getCompleteSets inv recipe = 0) ∧
    (∀ kv ∈ recipe, getCompleteSets inv recipe ≤ Int.fdiv (objGet inv kv.1) kv.2) ∧
    (recipe ≠ [] →
      ∃ kv ∈ recipe, getCompleteSets inv recipe = Int.fdiv (objGet inv kv.1) kv.2) ∧
    (calculateFinalScore 20 [("bread", 2), ("veggies", 2), ("cheese", 1), ("meat", 1)]
        100 [("bread", 1), ("veggies", 1), ("cheese", 1), ("meat", 1)]
        [("bread", 2), ("veggies", 4), ("cheese", 6), ("meat", 8)] 30
        [("bread", 1), ("veggies", 1), ("cheese", 1), ("meat", 1)]
      = ⟨1, 30, 6, 56, -64⟩) ∧
    List.Pairwise (fun x y : LBEntry => y.totalScore ≤ x.totalScore)
      (endGameLeaderboard entries) ∧
    (∀ h : i < (endGameLeaderboard entries).length,
      ((endGameLeaderboard entries).get ⟨i, h⟩).rank = i + 1) ∧
    ((endGameLeaderboard entries).map (fun e => (e.playerId, e.totalScore))).Perm
      (entries.map (fun e => (e.playerId, e.totalScore))) ∧
    (b.totalScore ≤ a.totalScore → [a, b].Sublist entries →
      [a, b].Sublist (sortedByScore entries)) := by
  refine ⟨?_, ?_, ?_, by decide, ?_, ?_, ?_, ?_⟩
  · intro h
    rw [h]
    rfl
  · intro kv hkv
    have hne : recipe ≠ [] := List.ne_nil_of_mem hkv
    cases recipe with
    | nil => exact absurd rfl hne
    | cons kv0 rest =>
      have hstep : minSetsAux inv (kv0 :: rest) none
          = minSetsAux inv rest (some (Int.fdiv (objGet inv kv0.1) kv0.2)) := by
        simp only [minSetsAux]
      rcases minSetsAux_isSome inv rest (Int.fdiv (objGet inv kv0.1) kv0.2) with ⟨k, hk⟩
      have hsome : minSetsAux inv (kv0 :: rest) none = some k := hstep.trans hk
      have hle := (minSetsAux_le inv (kv0 :: rest) none k hsome).1 kv hkv
      unfold getCompleteSets
      rw [hsome]
      exact hle
  · intro hne
    cases recipe with
    | nil => exact absurd rfl hne
    | cons kv0 rest =>
      have hstep : minSetsAux inv (kv0 :: rest) none
          = minSetsAux inv rest (some (Int.fdiv (objGet inv kv0.1) kv0.2)) := by
        simp only [minSetsAux]
      rcases minSetsAux_isSome inv rest (Int.fdiv (objGet inv kv0.1) kv0.2) with ⟨k, hk⟩
      have hsome : minSetsAux inv (kv0 :: rest) none = some k := hstep.trans hk
      have hatt := minSetsAux_attained inv (kv0 :: rest) none k hsome
      unfold getCompleteSets
      rw [hsome]
      rcases hatt with hacc | ⟨kv', hkv', hk'⟩
      · cases hacc
      · exact ⟨kv', hkv', hk'⟩
  · have hs : List.Pairwise scoreDescLE (sortedByScore entries) :=
      List.sorted_insertionSort scoreDescLE entries
    have hs' : List.Pairwise (fun x y : Nat × LBEntry => scoreDescLE x.2 y.2)
        ((sortedByScore entries).enum) := by
      rw [← List.pairwise_map]
      rw [List.enum_map_snd]
      exact hs
    unfold endGameLeaderboard
    rw [List.pairwise_map]
    exact hs'.imp (fun h => h)
  · intro h
    unfold endGameLeaderboard at h ⊢
    rw [List.get_eq_getElem]
    rw [List.getElem_map]
    rw [List.getElem_enum]
  · have h1 : (endGameLeaderboard entries).map (fun e => (e.playerId, e.totalScore))
        = (sortedByScore entries).map (fun e => (e.playerId, e.totalScore)) := by
      unfold endGameLeaderboard
      rw [List.map_map]
      have : ((fun e : LBEntry => (e.playerId, e.totalScore)) ∘
          (fun ie : Nat × LBEntry => { ie.2 with rank := ie.1 + 1 }))
          = (fun e : LBEntry => (e.playerId, e.totalScore)) ∘ Prod.snd := rfl
      rw [this, ← List.map_map, List.enum_map_snd]
    rw [h1]
    exact (List.perm_insertionSort scoreDescLE entries).map _
  · intro hab hsub
    exact List.pair_sublist_insertionSort hab hsub

/-- Three players, two tied at the top, in admission order. -/
def c7Entries : List LBEntry := [⟨"a", 10, 0⟩, ⟨"b", 20, 0⟩, ⟨"c", 20, 0⟩]

/-- Closed instantiation of `C7_scoring_leaderboard`. -/
theorem C7_scoring_leaderboard_witness :
    getCompleteSets [("bread", 2)] [] = 0 ∧
    getCompleteSets [("bread", 5)] [("bread", 2)]
      ≤ Int.fdiv (objGet [("bread", 5)] "bread") 2 ∧
    (∃ kv ∈ [("bread", (2 : Int))], getCompleteSets [("bread", 5)] [("bread", 2)]
      = Int.fdiv (objGet [("bread", 5)] kv.1) kv.2) ∧
    (calculateFinalScore 20 [("bread", 2), ("veggies", 2), ("cheese", 1), ("meat", 1)]
        100 [("bread", 1), ("veggies", 1), ("cheese", 1), ("meat", 1)]
        [("bread", 2), ("veggies", 4), ("cheese", 6), ("meat", 8)] 30
        [("bread", 1), ("veggies", 1), ("cheese", 1), ("meat", 1)]
      = ⟨1, 30, 6, 56, -64⟩) ∧
    List.Pairwise (fun x y : LBEntry => y.totalScore ≤ x.totalScore)
      (endGameLeaderboard c7Entries) ∧
    ((endGameLeaderboard c7Entries).get
      ⟨0, (by decide : 0 < (endGameLeaderboard c7Entries).length)⟩).rank = 0 + 1 ∧
    ((endGameLeaderboard c7Entries).map (fun e => (e.playerId, e.totalScore))).Perm
      (c7Entries.map (fun e => (e.playerId, e.totalScore))) ∧
    [(⟨"b", 20, 0⟩ : LBEntry), ⟨"c", 20, 0⟩].Sublist (sortedByScore c7Entries) := by
  have h0 := C7_scoring_leaderboard [("bread", 2)] [] c7Entries
    ⟨"b", 20, 0⟩ ⟨"c", 20, 0⟩ 0
  have h := C7_scoring_leaderboard [("bread", 5)] [("bread", 2)] c7Entries
    ⟨"b", 20, 0⟩ ⟨"c", 20, 0⟩ 0
  refine ⟨h0.1 rfl, h.2.1 ("bread", 2) (by decide), h.2.2.1 (by decide),
    h.2.2.2.1, h.2.2.2.2.1, h.2.2.2.2.2.1 (by decide), h.2.2.2.2.2.2.1, ?_⟩
  exact h.2.2.2.2.2.2.2 (by decide)
    ((List.Sublist.refl [(⟨"b", 20, 0⟩ : LBEntry), ⟨"c", 20, 0⟩]).cons (⟨"a", 10, 0⟩ : LBEntry))

/-- Pointwise description of `updatePlayer`. -/
theorem updatePlayer_apply (ps : Players) (pid : String) (f : Player → Player) (q : String) :
    updatePlayer ps pid f q = if q = pid then (ps q).map f else ps q :=
  rfl

/-- `updatePlayer` evaluated at the updated id. -/
theorem updatePlayer_same (ps : Players) (pid : String) (f : Player → Player) :
    updatePlayer ps pid f pid = (ps pid).map f := by
  rw [updatePlayer_apply, if_pos rfl]

/-- `updatePlayer` evaluated at any other id. -/
theorem updatePlayer_other (ps : Players) (pid : String) (f : Player → Player)
    (q : String) (h : q ≠ pid) : updatePlayer ps pid f q = ps q := by
  rw [updatePlayer_apply, if_neg h]

/-- `updatePlayer` preserves which ids are present. -/
theorem updatePlayer_isSome (ps : Players) (pid : String) (f : Player → Player) (q : String) :
    (updatePlayer ps pid f q).isSome = (ps q).isSome := by
  rw [updatePlayer_apply]
  split
  · cases ps q <;> rfl
  · rfl

/-- C10: while the session is not running (lobby or ended, or no start
timestamp yet) `Game.getRemainingTime` returns the full configured game
duration; while it is running the value is non-negative, non-increasing
in the current time, and equals the full duration at the start instant. -/
theorem C10_remaining_time (g : Game) (s now now2 : Int) :
    (g.status ≠ "running" → getRemainingTime g now = (g.gameDuration : ℚ)) ∧
    (g.status = "running" → g.startTime = some s →
      0 ≤ getRemainingTime g now ∧
      (now ≤ now2 → getRemainingTime g now2 ≤ getRemainingTime g now) ∧
      (0 ≤ g.gameDuration → getRemainingTime g s = (g.gameDuration : ℚ))) := by
  constructor
  · intro h
    unfold getRemainingTime
    rw [if_pos (Or.inl h)]
  · intro hrun hstart
    have hcond : ¬ (g.status ≠ "running" ∨ g.startTime.isNone) := by
      rw [hrun, hstart]
      simp
    refine ⟨?_, ?_, ?_⟩
    · unfold getRemainingTime
      rw [if_neg hcond]
      exact le_max_left 0 _
    · intro hle
      unfold getRemainingTime
      rw [if_neg hcond, if_neg hcond, hstart]
      apply max_le_max le_rfl
      have : ((now - s : Int) : ℚ) ≤ ((now2 - s : Int) : ℚ) := by
        exact_mod_cast sub_le_sub_right hle s
      simp only [Option.getD_some]
      linarith
    · intro hdur
      unfold getRemainingTime
      rw [if_neg hcond, hstart]
      simp only [Option.getD_some, sub_self, Int.cast_zero, zero_div, sub_zero]
      exact max_eq_right (by exact_mod_cast hdur)

/-- Closed instantiation of `C10_remaining_time`. -/
theorem C10_remaining_time_witness :
    getRemainingTime ⟨"lobby", none, 180⟩ 5 = (180 : ℚ) ∧
    0 ≤ getRemainingTime ⟨"running", some 0, 180⟩ 2000 ∧
    getRemainingTime ⟨"running", some 0, 180⟩ 3000 ≤
      getRemainingTime ⟨"running", some 0, 180⟩ 2000 ∧
    getRemainingTime ⟨"running", some 0, 180⟩ 0 = (180 : ℚ) := by
  have h1 := (C10_remaining_time ⟨"lobby", none, 180⟩ 0 5 5).1 (by decide)
  have h2 := (C10_remaining_time ⟨"running", some 0, 180⟩ 0 2000 3000).2 rfl rfl
  exact ⟨h1, h2.1, h2.2.1 (by norm_num), h2.2.2 (by norm_num)⟩

/-- C8: the `Order` and `Trade` constructors stamp `createdAt` and
`executedAt` from the wall clock alone, so two orders submitted in the
same millisecond tie on `createdAt` and two trades executed in the same
millisecond share a timestamp — against the requirement of a monotonic
counter with unique, strictly increasing values. -/
theorem C8_wall_clock_timestamps :
    (Order.create "o1" "alice" "bread" "buy" "limit" 1 (some 3) 1700000000000).createdAt
      = (Order.create "o2" "bob" "bread" "sell" "limit" 1 (some 3) 1700000000000).createdAt ∧
    (Trade.create "t1" "o1" "o2" "alice" "bob" "bread" 1 3 1700000000000).executedAt
      = (Trade.create "t2" "o3" "o4" "carol" "dan" "meat" 1 5 1700000000000).executedAt :=
  ⟨rfl, rfl⟩

/-- C9: `cancelOrder` on an unknown id reports not-found; by a non-owner
reports not-owner; on a filled or cancelled order reports
already-terminal — each without touching any state.  A successful cancel
marks the order cancelled, removes it from the product's book and from
the owner's open-order set, and leaves every player's cash and inventory
unchanged. -/
theorem C9_cancel_semantics (st : CancelState) (orderId playerId : String) :
    (st.orders orderId = none →
      cancelOrder st orderId playerId = ⟨false, some "Order not found", st⟩) ∧
    (∀ order, st.orders orderId = some order → order.playerId ≠ playerId →
      cancelOrder st orderId playerId = ⟨false, some "Not your order", st⟩) ∧
    (∀ order, st.orders orderId = some order → order.playerId = playerId →
      (order.status = "filled" ∨ order.status = "cancelled") →
      cancelOrder st orderId playerId
        = ⟨false, some ("Order already " ++ order.status), st⟩) ∧
    (∀ order, st.orders orderId = some order → order.playerId = playerId →
      order.status ≠ "filled" → order.status ≠ "cancelled" →
      (cancelOrder st orderId playerId).success = true ∧
      ((cancelOrder st orderId playerId).state.orders orderId).map Order.status
        = some "cancelled" ∧
      (∀ o ∈ ((cancelOrder st orderId playerId).state.books order.product).bids,
        o.orderId ≠ orderId) ∧
      (∀ o ∈ ((cancelOrder st orderId playerId).state.books order.product).asks,
        o.orderId ≠ orderId) ∧
      (∀ pid, ((cancelOrder st orderId playerId).state.players pid).map Player.cash
        = (st.players pid).map Player.cash) ∧
      (∀ pid, ((cancelOrder st orderId playerId).state.players pid).map Player.inventory
        = (st.players pid).map Player.inventory) ∧
      (∀ p', (cancelOrder st orderId playerId).state.players playerId = some p' →
        orderId ∉ p'.openOrderIds)) := by
  refine ⟨?_, ?_, ?_, ?_⟩
  · intro h
    simp only [cancelOrder, h]
  · intro order h hne
    simp only [cancelOrder, h]
    rw [if_pos hne]
  · intro order h hown hterm
    simp only [cancelOrder, h]
    rw [if_neg (by simp [hown]), if_pos hterm]
  · intro order h hown hf hc
    have hres : cancelOrder st orderId playerId =
        ⟨true, none,
          ⟨fun oid => if oid = orderId then some order.cancel else st.orders oid,
           fun p => if p = order.product then (st.books p).removeOrder orderId else st.books p,
           updatePlayer st.players playerId (Player.removeOrder orderId)⟩⟩ := by
      simp only [cancelOrder, h]
      rw [if_neg (by simp [hown]), if_neg (by simp [hf, hc])]
    rw [hres]
    refine ⟨rfl, ?_, ?_, ?_, ?_, ?_, ?_⟩
    · simp [Order.cancel]
    · intro o ho
      simp only [OrderBook.removeOrder, if_pos] at ho
      simp [List.mem_filter] at ho
      exact ho.2
    · intro o ho
      simp only [OrderBook.removeOrder, if_pos] at ho
      simp [List.mem_filter] at ho
      exact ho.2
    · intro pid
      show ((updatePlayer st.players playerId (Player.removeOrder orderId)) pid).map Player.cash
        = (st.players pid).map Player.cash
      rw [updatePlayer_apply]
      split
      · cases st.players pid <;> simp [Player.removeOrder]
      · rfl
    · intro pid
      show ((updatePlayer st.players playerId (Player.removeOrder orderId)) pid).map Player.inventory
        = (st.players pid).map Player.inventory
      rw [updatePlayer_apply]
      split
      · cases st.players pid <;> simp [Player.removeOrder]
      · rfl
    · intro p' hp'
      have hp2 : (updatePlayer st.players playerId (Player.removeOrder orderId)) playerId
          = some p' := hp'
      rw [updatePlayer_apply, if_pos rfl] at hp2
      rcases Option.map_eq_some'.mp hp2 with ⟨p0, _, hmap⟩
      subst hmap
      simp [Player.removeOrder]

/-- A resting order used to exercise `cancelOrder`. -/
def c9Order : Order :=
  ⟨"o1", "alice", "bread", "buy", "limit", 5, 5, some 3, "open", 10⟩

/-- A cancel-state with one resting order of alice's. -/
def c9State : CancelState :=
  ⟨fun oid => if oid = "o1" then some c9Order else none,
   fun p => if p = "bread" then ⟨"bread", [c9Order], []⟩ else ⟨p, [], []⟩,
   fun pid => if pid = "alice" then some (⟨"alice", 100, [("bread", 2)], ["o1"], []⟩ : Player)
     else none⟩

/-- Closed instantiation of `C9_cancel_semantics`. -/
theorem C9_cancel_semantics_witness :
    cancelOrder c9State "o1" "bob" = ⟨false, some "Not your order", c9State⟩ ∧
    (cancelOrder c9State "o1" "alice").success = true ∧
    ((cancelOrder c9State "o1" "alice").state.orders "o1").map Order.status
      = some "cancelled" := by
  have h1 := (C9_cancel_semantics c9State "o1" "bob").2.1 c9Order (by decide) (by decide)
  have h2 := (C9_cancel_semantics c9State "o1" "alice").2.2.2 c9Order (by decide) (by decide)
    (by decide) (by decide)
  exact ⟨h1, h2.1, h2.2.1⟩

/-- C5: every `submitOrder` call that fails validation — unknown
product, quantity out of bounds, limit order without a positive price,
insufficient cash for a buy, or insufficient inventory for a sell —
returns exactly one error message, creates no order, executes no trade,
and leaves the player store and the book untouched. -/
theorem C5_validation_rejects (cfg : Config) (fuel : Nat) (ps : Players) (book : OrderBook)
    (playerId product side orderType : String) (quantity : Int) (price : Option Int)
    (newOrderId : String) (now : Nat) (player : Player)
    (hp : ps playerId = some player)
    (hfail : product ∉ cfg.products ∨
      (quantity < cfg.minOrderSize ∨ quantity > cfg.maxOrderSize) ∨
      (orderType = "limit" ∧ (price.isNone ∨ price.getD 0 ≤ 0)) ∨
      (side = "buy" ∧ player.cash < requiredCashFor book orderType quantity price) ∨
      (side ≠ "buy" ∧ objGet player.inventory product < quantity)) :
    (submitOrder cfg fuel ps book playerId product side orderType quantity price
        newOrderId now).map SubmitResult.order = some none ∧
    (submitOrder cfg fuel ps book playerId product side orderType quantity price
        newOrderId now).map SubmitResult.trades = some [] ∧
    (submitOrder cfg fuel ps book playerId product side orderType quantity price
        newOrderId now).map (fun r => r.errors.length) = some 1 ∧
    (submitOrder cfg fuel ps book playerId product side orderType quantity price
        newOrderId now).map SubmitResult.players = some ps ∧
    (submitOrder cfg fuel ps book playerId product side orderType quantity price
        newOrderId now).map SubmitResult.book = some book := by
  simp only [submitOrder, hp]
  by_cases h1 : ¬ (product ∈ cfg.products)
  · rw [if_pos h1]; exact ⟨rfl, rfl, rfl, rfl, rfl⟩
  · rw [if_neg h1]
    by_cases h2 : quantity < cfg.minOrderSize ∨ quantity > cfg.maxOrderSize
    · rw [if_pos h2]; exact ⟨rfl, rfl, rfl, rfl, rfl⟩
    · rw [if_neg h2]
      by_cases h3 : orderType = "limit" ∧ (price.isNone ∨ price.getD 0 ≤ 0)
      · rw [if_pos h3]; exact ⟨rfl, rfl, rfl, rfl, rfl⟩
      · rw [if_neg h3]
        by_cases h4 : side = "buy" ∧ player.cash < requiredCashFor book orderType quantity price
        · rw [if_pos h4]; exact ⟨rfl, rfl, rfl, rfl, rfl⟩
        · rw [if_neg h4]
          by_cases h5 : side ≠ "buy" ∧ objGet player.inventory product < quantity
          · rw [if_pos h5]; exact ⟨rfl, rfl, rfl, rfl, rfl⟩
          · rcases hfail with h | h | h | h | h
            · exact absurd h h1
            · exact absurd h h2
            · exact absurd h h3
            · exact absurd h h4
            · exact absurd h h5

/-- The spec's "insufficient funds" scenario: a player with cash 5. -/
def c5Player : Player := ⟨"p1", 5, [], [], []⟩

/-- Player store holding only `c5Player`. -/
def c5Players : Players := fun pid => if pid = "p1" then some c5Player else none

/-- An empty bread book. -/
def c5Book : OrderBook := ⟨"bread", [], []⟩

/-- Closed instantiation of `C5_validation_rejects`: buy 10 bread @ 1
with cash 5 is rejected with one error and no state change. -/
theorem C5_validation_rejects_witness :
    (submitOrder ⟨["bread"], 1, 100⟩ 10 c5Players c5Book "p1" "bread" "buy" "limit" 10
        (some 1) "o1" 0).map SubmitResult.order = some none ∧
    (submitOrder ⟨["bread"], 1, 100⟩ 10 c5Players c5Book "p1" "bread" "buy" "limit" 10
        (some 1) "o1" 0).map SubmitResult.trades = some [] ∧
    (submitOrder ⟨["bread"], 1, 100⟩ 10 c5Players c5Book "p1" "bread" "buy" "limit" 10
        (some 1) "o1" 0).map (fun r => r.errors.length) = some 1 ∧
    (submitOrder ⟨["bread"], 1, 100⟩ 10 c5Players c5Book "p1" "bread" "buy" "limit" 10
        (some 1) "o1" 0).map SubmitResult.players = some c5Players ∧
    (submitOrder ⟨["bread"], 1, 100⟩ 10 c5Players c5Book "p1" "bread" "buy" "limit" 10
        (some 1) "o1" 0).map SubmitResult.book = some c5Book :=
  C5_validation_rejects ⟨["bread"], 1, 100⟩ 10 c5Players c5Book "p1" "bread" "buy" "limit"
    10 (some 1) "o1" 0 c5Player rfl
    (Or.inr (Or.inr (Or.inr (Or.inl ⟨rfl, by decide⟩))))

/-- A resting ask whose owner no longer holds the inventory (possible
because resting orders do not escrow resources). -/
def c1Ask : Order := ⟨"a1", "S", "bread", "sell", "limit", 5, 5, some 3, "open", 0⟩

/-- A crossing incoming buy order for the same quantity and price. -/
def c1Incoming : Order := ⟨"b1", "B", "bread", "buy", "limit", 5, 5, some 3, "open", 1⟩

/-- Buyer B has ample cash; seller S has zero bread, so the
execution-time inventory re-check must fail. -/
def c1Players : Players := fun pid =>
  if pid = "B" then some ⟨"B", 100, [], [], []⟩
  else if pid = "S" then some ⟨"S", 0, [("bread", 0)], [], []⟩
  else none

/-- The matching-loop state at the moment of the failing re-check. -/
def c1State : MatchState := ⟨c1Players, ⟨"bread", [], [c1Ask]⟩, c1Incoming⟩

/-- C1: when the execution-time resource re-check fails, `executeTrade`
returns `null` without producing a trade or touching any balance, but
`matchOrder`'s loop does not break: on this state it re-selects the same
opposing order forever, making no progress for any amount of fuel — the
submission never returns (the claim says the loop halts and `submit`
still returns). -/
theorem C1_recheck_failure_loops_forever (n : Nat) (ts : List Trade) :
    matchLoop 0 n c1State ts = (c1State, ts, false) := by
  induction n with
  | zero => rfl
  | succ n ih =>
    have hstep : matchLoop 0 (n + 1) c1State ts = matchLoop 0 n c1State ts := rfl
    rw [hstep, ih]

/-- A trade produced by `executeTrade` carries the two orders' owner ids
as buyer and seller (in the orientation given by the incoming side). -/
theorem executeTrade_trade_ids (ps : Players) (incoming resting : Order)
    (tid : String) (now : Nat) (t : Trade)
    (h : (executeTrade ps incoming resting tid now).trade = some t) :
    (t.buyerId = incoming.playerId ∧ t.sellerId = resting.playerId) ∨
    (t.buyerId = resting.playerId ∧ t.sellerId = incoming.playerId) := by
  unfold executeTrade at h
  simp only [] at h
  repeat' split at h
  all_goals try dsimp only at h
  all_goals
    first
      | exact Option.noConfusion h
      | (injection h with h2; rw [← h2]; simp)

/-- Every trade accumulated by the matching loop either was already in
the accumulator or has distinct buyer and seller. -/
theorem matchLoop_trades_no_self (now : Nat) :
    ∀ (n : Nat) (s : MatchState) (ts : List Trade) (t : Trade),
      t ∈ (matchLoop now n s ts).2.1 → t ∈ ts ∨ t.buyerId ≠ t.sellerId := by
  intro n
  induction n with
  | zero => intro s ts t ht; exact Or.inl ht
  | succ n ih =>
    intro s ts t ht
    rw [matchLoop] at ht
    by_cases h0 : s.incoming.remainingQuantity ≤ 0
    · rw [if_pos h0] at ht; exact Or.inl ht
    · rw [if_neg h0] at ht
      revert ht
      cases hopp : (if s.incoming.side = "buy" then s.book.getBestAsk else s.book.getBestBid) with
      | none => intro ht; exact Or.inl ht
      | some opp =>
        dsimp only
        by_cases hself : opp.playerId = s.incoming.playerId
        · rw [if_pos hself]; intro ht; exact Or.inl ht
        · rw [if_neg hself]
          by_cases hp1 : s.incoming.orderType = "limit" ∧ s.incoming.side = "buy"
              ∧ priceVal s.incoming < priceVal opp
          · rw [if_pos hp1]; intro ht; exact Or.inl ht
          · rw [if_neg hp1]
            by_cases hp2 : s.incoming.orderType = "limit" ∧ s.incoming.side = "sell"
                ∧ priceVal s.incoming > priceVal opp
            · rw [if_pos hp2]; intro ht; exact Or.inl ht
            · rw [if_neg hp2]
              intro ht
              rcases ih _ _ _ ht with hmem | hne
              · cases htr : (executeTrade s.players s.incoming opp "" now).trade with
                | none =>
                  rw [htr] at hmem
                  exact Or.inl hmem
                | some t0 =>
                  rw [htr] at hmem
                  rcases List.mem_append.mp hmem with h | h
                  · exact Or.inl h
                  · have ht0 : t = t0 := by simpa using h
                    subst ht0
                    rcases executeTrade_trade_ids _ _ _ _ _ _ htr with ⟨hb, hs⟩ | ⟨hb, hs⟩
                    · exact Or.inr (by rw [hb, hs]; exact fun hEq => hself hEq.symm)
                    · exact Or.inr (by rw [hb, hs]; exact fun hEq => hself hEq)
              · exact Or.inr hne

/-- In-place overwrite of the first entry with key `k` is found by a
search for `k`. -/
theorem find?_set_self (k : String) (v : Int) (inv : List (String × Int))
    (h : inv.any (fun kv => kv.1 == k) = true) :
    (inv.map (fun kv => if kv.1 == k then (k, v) else kv)).find? (fun kv => kv.1 == k)
      = some (k, v) := by
  induction inv with
  | nil => simp at h
  | cons kv rest ih =>
    simp only [List.any_cons, Bool.or_eq_true] at h
    by_cases hkv : kv.1 = k
    · have hb : (kv.1 == k) = true := by simpa using hkv
      rw [List.map_cons, if_pos hb, List.find?_cons_of_pos _ (by simp)]
    · have hb : (kv.1 == k) = false := by simpa using hkv
      rcases h with h | h
      · rw [hb] at h; cases h
      · rw [List.map_cons, if_neg (by simp [hkv]),
          List.find?_cons_of_neg _ (by simp [hkv]), ih h]

/-- Overwriting key `k` does not change what a search for `k' ≠ k`
finds. -/
theorem find?_set_other (k k' : String) (v : Int) (hne : k' ≠ k)
    (inv : List (String × Int)) :
    (inv.map (fun kv => if kv.1 == k then (k, v) else kv)).find? (fun kv => kv.1 == k')
      = inv.find? (fun kv => kv.1 == k') := by
  induction inv with
  | nil => rfl
  | cons kv rest ih =>
    by_cases hkv : kv.1 = k
    · have h1 : (kv.1 == k) = true := by simpa using hkv
      have h3 : ¬ (kv.1 == k') = true := by
        rw [hkv]; simpa using (Ne.symm hne)
      have e1 : List.find? (fun kv => kv.1 == k')
          (((k, v) : String × Int) :: rest.map (fun kv => if kv.1 == k then (k, v) else kv))
          = List.find? (fun kv => kv.1 == k')
            (rest.map (fun kv => if kv.1 == k then (k, v) else kv)) :=
        List.find?_cons_of_neg _ (by simpa using (Ne.symm hne))
      have e2 : List.find? (fun kv => kv.1 == k') (kv :: rest)
          = List.find? (fun kv => kv.1 == k') rest :=
        List.find?_cons_of_neg _ h3
      rw [List.map_cons, if_pos h1, e1, ih, e2]
    · have h1 : ¬ (kv.1 == k) = true := by simpa using hkv
      by_cases hkv' : kv.1 = k'
      · have e1 : List.find? (fun kv => kv.1 == k')
            (kv :: rest.map (fun kv => if kv.1 == k then (k, v) else kv))
            = some kv :=
          List.find?_cons_of_pos _ (by simpa using hkv')
        have e2 : List.find? (fun kv => kv.1 == k') (kv :: rest) = some kv :=
          List.find?_cons_of_pos _ (by simpa using hkv')
        rw [List.map_cons, if_neg h1, e1, e2]
      · have e1 : List.find? (fun kv => kv.1 == k')
            (kv :: rest.map (fun kv => if kv.1 == k then (k, v) else kv))
            = List.find? (fun kv => kv.1 == k')
              (rest.map (fun kv => if kv.1 == k then (k, v) else kv)) :=
          List.find?_cons_of_neg _ (by simpa using hkv')
        have e2 : List.find? (fun kv => kv.1 == k') (kv :: rest)
            = List.find? (fun kv => kv.1 == k') rest :=
          List.find?_cons_of_neg _ (by simpa using hkv')
        rw [List.map_cons, if_neg h1, e1, ih, e2]

/-- Reading a JS dictionary after a write: the written key returns the
written value, any other key is unchanged. -/
theorem objGet_objSet (inv : List (String × Int)) (k k' : String) (v : Int) :
    objGet (objSet inv k v) k' = if k' = k then v else objGet inv k' := by
  unfold objSet
  by_cases hk : inv.any (fun kv => kv.1 == k) = true
  · rw [if_pos hk]
    by_cases h' : k' = k
    · subst h'
      rw [if_pos rfl]
      unfold objGet
      rw [find?_set_self k' v inv hk]
      rfl
    · rw [if_neg h']
      unfold objGet
      rw [find?_set_other k k' v h' inv]
  · rw [if_neg hk]
    unfold objGet
    rw [List.find?_append]
    by_cases h' : k' = k
    · subst h'
      have hnone : inv.find? (fun kv => kv.1 == k') = none := by
        rw [List.find?_eq_none]
        intro kv hkv hpred
        exact hk (List.any_eq_true.mpr ⟨kv, hkv, hpred⟩)
      rw [hnone, if_pos rfl]
      rw [List.find?_cons_of_pos _ (by simp)]
      rfl
    · rw [if_neg h']
      have h2 : ¬ (((k, v) : String × Int).1 == k') = true := by
        simpa using (Ne.symm h')
      cases hfind : inv.find? (fun kv => kv.1 == k') with
      | none =>
        rw [show List.find? (fun kv => kv.1 == k') [((k, v) : String × Int)] = none from
          List.find?_cons_of_neg _ h2]
        rfl
      | some kv0 =>
        rfl

/-- Total of a projection `g` of the players with the given ids
(absent ids count 0). -/
def sumOver (ps : Players) (pids : List String) (g : Player → Int) : Int :=
  (pids.map (fun pid => ((ps pid).map g).getD 0)).sum

/-- Updating one present player shifts any projection total by exactly
that player's delta. -/
theorem sumOver_updatePlayer (ps : Players) (x : String) (f : Player → Player)
    (g : Player → Int) (d : Int) (hf : ∀ p, g (f p) = g p + d) :
    ∀ (pids : List String), pids.Nodup → x ∈ pids → (ps x).isSome = true →
      sumOver (updatePlayer ps x f) pids g = sumOver ps pids g + d := by
  intro pids
  induction pids with
  | nil => intro _ hx; cases hx
  | cons hd rest ih =>
    intro hnd hx hsome
    rcases List.mem_cons.mp hx with heq | hx'
    · subst heq
      have hxrest : x ∉ rest := (List.nodup_cons.mp hnd).1
      unfold sumOver
      simp only [List.map_cons, List.sum_cons]
      have h1 : ((updatePlayer ps x f x).map g).getD 0 = ((ps x).map g).getD 0 + d := by
        rw [updatePlayer_apply, if_pos rfl]
        rcases Option.isSome_iff_exists.mp hsome with ⟨pl, hpl⟩
        rw [hpl]
        simp [hf]
      have h2 : rest.map (fun pid => ((updatePlayer ps x f pid).map g).getD 0)
          = rest.map (fun pid => ((ps pid).map g).getD 0) := by
        apply List.map_congr_left
        intro q hq
        rw [updatePlayer_apply, if_neg (by rintro rfl; exact hxrest hq)]
      rw [h1, h2]
      omega
    · have hpx : hd ≠ x := by
        rintro rfl
        exact (List.nodup_cons.mp hnd).1 hx'
      unfold sumOver
      simp only [List.map_cons, List.sum_cons]
      have h1 : ((updatePlayer ps x f hd).map g).getD 0 = ((ps hd).map g).getD 0 := by
        rw [updatePlayer_apply, if_neg hpx]
      have h2 := ih (List.nodup_cons.mp hnd).2 hx' hsome
      unfold sumOver at h2
      rw [h1, h2]
      omega

/-- `settleChain` shifts the total of any player projection by exactly
the buyer's delta plus the seller's delta, over any duplicate-free id
list containing both parties. -/
theorem settleChain_sum (ps : Players) (buyerId sellerId product : String)
    (quantity price : Int) (tid : String) (bo so : Order)
    (g : Player → Int) (db ds : Int)
    (hgb : ∀ p, g (buyerSettle product quantity (quantity * price) p) = g p + db)
    (hgs : ∀ p, g (sellerSettle product quantity (quantity * price) p) = g p + ds)
    (hgt : ∀ p, g (Player.addTrade tid p) = g p)
    (hgrb : ∀ p, g (Player.removeOrder bo.orderId p) = g p)
    (hgrs : ∀ p, g (Player.removeOrder so.orderId p) = g p)
    (pids : List String) (hnd : pids.Nodup) (hbm : buyerId ∈ pids) (hsm : sellerId ∈ pids)
    (hb : (ps buyerId).isSome = true) (hs : (ps sellerId).isSome = true) :
    sumOver (settleChain ps buyerId sellerId product quantity price tid bo so) pids g
      = sumOver ps pids g + db + ds := by
  unfold settleChain
  simp only []
  set s1 := updatePlayer ps buyerId (buyerSettle product quantity (quantity * price)) with hs1e
  set s2 := updatePlayer s1 sellerId (sellerSettle product quantity (quantity * price)) with hs2e
  set s3 := updatePlayer s2 buyerId (Player.addTrade tid) with hs3e
  set s4 := updatePlayer s3 sellerId (Player.addTrade tid) with hs4e
  have i1 : ∀ y, (s1 y).isSome = (ps y).isSome := by
    intro y; rw [hs1e, updatePlayer_isSome]
  have i2 : ∀ y, (s2 y).isSome = (ps y).isSome := by
    intro y; rw [hs2e, updatePlayer_isSome, i1]
  have i3 : ∀ y, (s3 y).isSome = (ps y).isSome := by
    intro y; rw [hs3e, updatePlayer_isSome, i2]
  have i4 : ∀ y, (s4 y).isSome = (ps y).isSome := by
    intro y; rw [hs4e, updatePlayer_isSome, i3]
  have e1 : sumOver s1 pids g = sumOver ps pids g + db := by
    rw [hs1e]
    exact sumOver_updatePlayer ps buyerId _ g db hgb pids hnd hbm hb
  have e2 : sumOver s2 pids g = sumOver s1 pids g + ds := by
    rw [hs2e]
    exact sumOver_updatePlayer s1 sellerId _ g ds hgs pids hnd hsm ((i1 sellerId).trans hs)
  have e3 : sumOver s3 pids g = sumOver s2 pids g := by
    rw [hs3e]
    have := sumOver_updatePlayer s2 buyerId (Player.addTrade tid) g 0
      (by intro p; rw [hgt p]; ring) pids hnd hbm ((i2 buyerId).trans hb)
    omega
  have e4 : sumOver s4 pids g = sumOver s3 pids g := by
    rw [hs4e]
    have := sumOver_updatePlayer s3 sellerId (Player.addTrade tid) g 0
      (by intro p; rw [hgt p]; ring) pids hnd hsm ((i3 sellerId).trans hs)
    omega
  by_cases h5 : bo.status = "filled" <;> by_cases h6 : so.status = "filled"
  · rw [if_pos h5, if_pos h6]
    have e5 : sumOver (updatePlayer s4 buyerId (Player.removeOrder bo.orderId)) pids g
        = sumOver s4 pids g := by
      have := sumOver_updatePlayer s4 buyerId (Player.removeOrder bo.orderId) g 0
        (by intro p; rw [hgrb p]; ring) pids hnd hbm ((i4 buyerId).trans hb)
      omega
    have e6 : sumOver (updatePlayer (updatePlayer s4 buyerId (Player.removeOrder bo.orderId))
          sellerId (Player.removeOrder so.orderId)) pids g
        = sumOver (updatePlayer s4 buyerId (Player.removeOrder bo.orderId)) pids g := by
      have := sumOver_updatePlayer (updatePlayer s4 buyerId (Player.removeOrder bo.orderId))
        sellerId (Player.removeOrder so.orderId) g 0
        (by intro p; rw [hgrs p]; ring) pids hnd hsm
        (by rw [updatePlayer_isSome]; exact (i4 sellerId).trans hs)
      omega
    omega
  · rw [if_pos h5, if_neg h6]
    have e5 : sumOver (updatePlayer s4 buyerId (Player.removeOrder bo.orderId)) pids g
        = sumOver s4 pids g := by
      have := sumOver_updatePlayer s4 buyerId (Player.removeOrder bo.orderId) g 0
        (by intro p; rw [hgrb p]; ring) pids hnd hbm ((i4 buyerId).trans hb)
      omega
    omega
  · rw [if_neg h5, if_pos h6]
    have e6 : sumOver (updatePlayer s4 sellerId (Player.removeOrder so.orderId)) pids g
        = sumOver s4 pids g := by
      have := sumOver_updatePlayer s4 sellerId (Player.removeOrder so.orderId) g 0
        (by intro p; rw [hgrs p]; ring) pids hnd hsm ((i4 sellerId).trans hs)
      omega
    omega
  · rw [if_neg h5, if_neg h6]
    omega

/-- After `settleChain`, the buyer's cash went down by `qty × price` and
the buyer's inventory of the product went up by `qty` (distinct buyer
and seller). -/
theorem settleChain_buyer_proj (ps : Players) (buyerId sellerId product : String)
    (quantity price : Int) (tid : String) (bo so : Order)
    (hne : buyerId ≠ sellerId) (buyer : Player) (hb : ps buyerId = some buyer) :
    (settleChain ps buyerId sellerId product quantity price tid bo so buyerId).map
        Player.cash = some (buyer.cash - quantity * price) ∧
    (settleChain ps buyerId sellerId product quantity price tid bo so buyerId).map
        (fun pl => objGet pl.inventory product)
      = some (objGet buyer.inventory product + quantity) := by
  unfold settleChain
  by_cases h5 : bo.status = "filled" <;> by_cases h6 : so.status = "filled"
  · rw [if_pos h6, if_pos h5, updatePlayer_other _ _ _ _ hne, updatePlayer_same,
      updatePlayer_other _ _ _ _ hne, updatePlayer_same,
      updatePlayer_other _ _ _ _ hne, updatePlayer_same, hb]
    constructor <;> simp [Player.addTrade, Player.removeOrder, buyerSettle, objGet_objSet]
  · rw [if_neg h6, if_pos h5, updatePlayer_same,
      updatePlayer_other _ _ _ _ hne, updatePlayer_same,
      updatePlayer_other _ _ _ _ hne, updatePlayer_same, hb]
    constructor <;> simp [Player.addTrade, Player.removeOrder, buyerSettle, objGet_objSet]
  · rw [if_pos h6, if_neg h5, updatePlayer_other _ _ _ _ hne,
      updatePlayer_other _ _ _ _ hne, updatePlayer_same,
      updatePlayer_other _ _ _ _ hne, updatePlayer_same, hb]
    constructor <;> simp [Player.addTrade, Player.removeOrder, buyerSettle, objGet_objSet]
  · rw [if_neg h6, if_neg h5,
      updatePlayer_other _ _ _ _ hne, updatePlayer_same,
      updatePlayer_other _ _ _ _ hne, updatePlayer_same, hb]
    constructor <;> simp [Player.addTrade, Player.removeOrder, buyerSettle, objGet_objSet]

/-- After `settleChain`, the seller's cash went up by `qty × price` and
the seller's inventory of the product went down by `qty` (distinct
buyer and seller). -/
theorem settleChain_seller_proj (ps : Players) (buyerId sellerId product : String)
    (quantity price : Int) (tid : String) (bo so : Order)
    (hne : buyerId ≠ sellerId) (seller : Player) (hs : ps sellerId = some seller) :
    (settleChain ps buyerId sellerId product quantity price tid bo so sellerId).map
        Player.cash = some (seller.cash + quantity * price) ∧
    (settleChain ps buyerId sellerId product quantity price tid bo so sellerId).map
        (fun pl => objGet pl.inventory product)
      = some (objGet seller.inventory product - quantity) := by
  have hne' : sellerId ≠ buyerId := Ne.symm hne
  unfold settleChain
  by_cases h5 : bo.status = "filled" <;> by_cases h6 : so.status = "filled"
  · rw [if_pos h6, if_pos h5, updatePlayer_same, updatePlayer_other _ _ _ _ hne',
      updatePlayer_same, updatePlayer_other _ _ _ _ hne',
      updatePlayer_same, updatePlayer_other _ _ _ _ hne', hs]
    constructor <;> simp [Player.addTrade, Player.removeOrder, sellerSettle, objGet_objSet]
  · rw [if_neg h6, if_pos h5, updatePlayer_other _ _ _ _ hne', updatePlayer_same,
      updatePlayer_other _ _ _ _ hne', updatePlayer_same,
      updatePlayer_other _ _ _ _ hne', hs]
    constructor <;> simp [Player.addTrade, Player.removeOrder, sellerSettle, objGet_objSet]
  · rw [if_pos h6, if_neg h5, updatePlayer_same, updatePlayer_same,
      updatePlayer_other _ _ _ _ hne', updatePlayer_same,
      updatePlayer_other _ _ _ _ hne', hs]
    constructor <;> simp [Player.addTrade, Player.removeOrder, sellerSettle, objGet_objSet]
  · rw [if_neg h6, if_neg h5, updatePlayer_same, updatePlayer_other _ _ _ _ hne',
      updatePlayer_same, updatePlayer_other _ _ _ _ hne', hs]
    constructor <;> simp [Player.addTrade, Player.removeOrder, sellerSettle, objGet_objSet]

/-- C2: every trade produced by `executeTrade` has quantity
`min(incoming.remaining, resting.remaining)` and the resting (maker)
order's price; settlement debits the buyer's cash by exactly
`qty × price`, credits the seller's by the same amount, credits the
buyer's inventory of the product by `qty` and debits the seller's by
`qty` — hence the total cash, and the total inventory of every product,
over any duplicate-free participant list containing buyer and seller is
unchanged. -/
theorem C2_trade_settlement (ps : Players) (incoming resting : Order)
    (tid : String) (now : Nat) (t : Trade)
    (ht : (executeTrade ps incoming resting tid now).trade = some t) :
    t.quantity = min incoming.remainingQuantity resting.remainingQuantity ∧
    t.price = priceVal resting ∧
    (t.buyerId ≠ t.sellerId →
      ∃ buyer, ps t.buyerId = some buyer ∧
        ((executeTrade ps incoming resting tid now).players t.buyerId).map Player.cash
          = some (buyer.cash - t.quantity * t.price) ∧
        ((executeTrade ps incoming resting tid now).players t.buyerId).map
            (fun pl => objGet pl.inventory incoming.product)
          = some (objGet buyer.inventory incoming.product + t.quantity)) ∧
    (t.buyerId ≠ t.sellerId →
      ∃ seller, ps t.sellerId = some seller ∧
        ((executeTrade ps incoming resting tid now).players t.sellerId).map Player.cash
          = some (seller.cash + t.quantity * t.price) ∧
        ((executeTrade ps incoming resting tid now).players t.sellerId).map
            (fun pl => objGet pl.inventory incoming.product)
          = some (objGet seller.inventory incoming.product - t.quantity)) ∧
    (∀ (pids : List String), pids.Nodup → t.buyerId ∈ pids → t.sellerId ∈ pids →
      sumOver (executeTrade ps incoming resting tid now).players pids Player.cash
        = sumOver ps pids Player.cash) ∧
    (∀ (pids : List String) (q : String), pids.Nodup → t.buyerId ∈ pids →
      t.sellerId ∈ pids →
      sumOver (executeTrade ps incoming resting tid now).players pids
          (fun pl => objGet pl.inventory q)
        = sumOver ps pids (fun pl => objGet pl.inventory q)) := by
  unfold executeTrade at ht ⊢
  by_cases hside : incoming.side = "buy"
  · simp only [if_pos hside] at ht ⊢
    cases hbuy : ps incoming.playerId with
    | none => rw [hbuy] at ht; simp at ht
    | some buyer =>
      cases hsell : ps resting.playerId with
      | none => rw [hbuy, hsell] at ht; simp at ht
      | some seller =>
        rw [hbuy, hsell] at ht
        dsimp only at ht ⊢
        by_cases hc1 : buyer.cash
            < min incoming.remainingQuantity resting.remainingQuantity * priceVal resting
        · rw [if_pos hc1] at ht; simp at ht
        · rw [if_neg hc1] at ht ⊢
          by_cases hc2 : objGet seller.inventory incoming.product
              < min incoming.remainingQuantity resting.remainingQuantity
          · rw [if_pos hc2] at ht; simp at ht
          · rw [if_neg hc2] at ht ⊢
            dsimp only at ht ⊢
            injection ht with hteq
            subst hteq
            dsimp only
            refine ⟨rfl, rfl, ?_, ?_, ?_, ?_⟩
            · intro hne
              exact ⟨buyer, hbuy,
                (settleChain_buyer_proj ps incoming.playerId resting.playerId
                  incoming.product _ _ tid _ _ hne buyer hbuy).1,
                (settleChain_buyer_proj ps incoming.playerId resting.playerId
                  incoming.product _ _ tid _ _ hne buyer hbuy).2⟩
            · intro hne
              exact ⟨seller, hsell,
                (settleChain_seller_proj ps incoming.playerId resting.playerId
                  incoming.product _ _ tid _ _ hne seller hsell).1,
                (settleChain_seller_proj ps incoming.playerId resting.playerId
                  incoming.product _ _ tid _ _ hne seller hsell).2⟩
            · intro pids hnd hbm hsm
              have := settleChain_sum ps incoming.playerId resting.playerId
                incoming.product
                (min incoming.remainingQuantity resting.remainingQuantity)
                (priceVal resting) tid (incoming.fill (min incoming.remainingQuantity resting.remainingQuantity)) (resting.fill (min incoming.remainingQuantity resting.remainingQuantity)) Player.cash
                (-(min incoming.remainingQuantity resting.remainingQuantity * priceVal resting))
                (min incoming.remainingQuantity resting.remainingQuantity * priceVal resting)
                (by intro p; simp only [buyerSettle]; ring)
                (by intro p; simp only [sellerSettle])
                (by intro p; simp [Player.addTrade])
                (by intro p; simp [Player.removeOrder])
                (by intro p; simp [Player.removeOrder])
                pids hnd hbm hsm (by rw [hbuy]; rfl) (by rw [hsell]; rfl)
              omega
            · intro pids q hnd hbm hsm
              have := settleChain_sum ps incoming.playerId resting.playerId
                incoming.product
                (min incoming.remainingQuantity resting.remainingQuantity)
                (priceVal resting) tid (incoming.fill (min incoming.remainingQuantity resting.remainingQuantity)) (resting.fill (min incoming.remainingQuantity resting.remainingQuantity)) (fun pl => objGet pl.inventory q)
                (if q = incoming.product
                  then min incoming.remainingQuantity resting.remainingQuantity else 0)
                (-(if q = incoming.product
                  then min incoming.remainingQuantity resting.remainingQuantity else 0))
                (by
                  intro p
                  simp only [buyerSettle, objGet_objSet]
                  by_cases hq : q = incoming.product
                  · rw [if_pos hq, if_pos hq, hq]
                  · rw [if_neg hq, if_neg hq]
                    ring)
                (by
                  intro p
                  simp only [sellerSettle, objGet_objSet]
                  by_cases hq : q = incoming.product
                  · rw [if_pos hq, if_pos hq, hq]
                    ring
                  · rw [if_neg hq, if_neg hq]
                    ring)
                (by intro p; simp [Player.addTrade])
                (by intro p; simp [Player.removeOrder])
                (by intro p; simp [Player.removeOrder])
                pids hnd hbm hsm (by rw [hbuy]; rfl) (by rw [hsell]; rfl)
              omega
  · simp only [if_neg hside] at ht ⊢
    cases hbuy : ps resting.playerId with
    | none => rw [hbuy] at ht; simp at ht
    | some buyer =>
      cases hsell : ps incoming.playerId with
      | none => rw [hbuy, hsell] at ht; simp at ht
      | some seller =>
        rw [hbuy, hsell] at ht
        dsimp only at ht ⊢
        by_cases hc1 : buyer.cash
            < min incoming.remainingQuantity resting.remainingQuantity * priceVal resting
        · rw [if_pos hc1] at ht; simp at ht
        · rw [if_neg hc1] at ht ⊢
          by_cases hc2 : objGet seller.inventory incoming.product
              < min incoming.remainingQuantity resting.remainingQuantity
          · rw [if_pos hc2] at ht; simp at ht
          · rw [if_neg hc2] at ht ⊢
            dsimp only at ht ⊢
            injection ht with hteq
            subst hteq
            dsimp only
            refine ⟨rfl, rfl, ?_, ?_, ?_, ?_⟩
            · intro hne
              exact ⟨buyer, hbuy,
                (settleChain_buyer_proj ps resting.playerId incoming.playerId
                  incoming.product _ _ tid _ _ hne buyer hbuy).1,
                (settleChain_buyer_proj ps resting.playerId incoming.playerId
                  incoming.product _ _ tid _ _ hne buyer hbuy).2⟩
            · intro hne
              exact ⟨seller, hsell,
                (settleChain_seller_proj ps resting.playerId incoming.playerId
                  incoming.product _ _ tid _ _ hne seller hsell).1,
                (settleChain_seller_proj ps resting.playerId incoming.playerId
                  incoming.product _ _ tid _ _ hne seller hsell).2⟩
            · intro pids hnd hbm hsm
              have := settleChain_sum ps resting.playerId incoming.playerId
                incoming.product
                (min incoming.remainingQuantity resting.remainingQuantity)
                (priceVal resting) tid (resting.fill (min incoming.remainingQuantity resting.remainingQuantity)) (incoming.fill (min incoming.remainingQuantity resting.remainingQuantity)) Player.cash
                (-(min incoming.remainingQuantity resting.remainingQuantity * priceVal resting))
                (min incoming.remainingQuantity resting.remainingQuantity * priceVal resting)
                (by intro p; simp only [buyerSettle]; ring)
                (by intro p; simp only [sellerSettle])
                (by intro p; simp [Player.addTrade])
                (by intro p; simp [Player.removeOrder])
                (by intro p; simp [Player.removeOrder])
                pids hnd hbm hsm (by rw [hbuy]; rfl) (by rw [hsell]; rfl)
              omega
            · intro pids q hnd hbm hsm
              have := settleChain_sum ps resting.playerId incoming.playerId
                incoming.product
                (min incoming.remainingQuantity resting.remainingQuantity)
                (priceVal resting) tid (resting.fill (min incoming.remainingQuantity resting.remainingQuantity)) (incoming.fill (min incoming.remainingQuantity resting.remainingQuantity)) (fun pl => objGet pl.inventory q)
                (if q = incoming.product
                  then min incoming.remainingQuantity resting.remainingQuantity else 0)
                (-(if q = incoming.product
                  then min incoming.remainingQuantity resting.remainingQuantity else 0))
                (by
                  intro p
                  simp only [buyerSettle, objGet_objSet]
                  by_cases hq : q = incoming.product
                  · rw [if_pos hq, if_pos hq, hq]
                  · rw [if_neg hq, if_neg hq]
                    ring)
                (by
                  intro p
                  simp only [sellerSettle, objGet_objSet]
                  by_cases hq : q = incoming.product
                  · rw [if_pos hq, if_pos hq, hq]
                    ring
                  · rw [if_neg hq, if_neg hq]
                    ring)
                (by intro p; simp [Player.addTrade])
                (by intro p; simp [Player.removeOrder])
                (by intro p; simp [Player.removeOrder])
                pids hnd hbm hsm (by rw [hbuy]; rfl) (by rw [hsell]; rfl)
              omega

/-- All fields of an order except its mutable fill state
(`remainingQuantity`, `status`). -/
def orderCore (o : Order) :
    String × String × String × String × String × Int × Option Int × Nat :=
  (o.orderId, o.playerId, o.product, o.side, o.orderType, o.quantity, o.price, o.createdAt)

/-- Orders with the same core have the same `orderType`. -/
theorem orderCore_orderType {a b : Order} (h : orderCore a = orderCore b) :
    a.orderType = b.orderType :=
  congrArg (fun t => t.2.2.2.2.1) h

/-- Orders with the same core have the same `orderId`. -/
theorem orderCore_orderId {a b : Order} (h : orderCore a = orderCore b) :
    a.orderId = b.orderId :=
  congrArg (fun t => t.1) h

/-- Orders with the same core have the same `price`. -/
theorem orderCore_price {a b : Order} (h : orderCore a = orderCore b) :
    a.price = b.price :=
  congrArg (fun t => t.2.2.2.2.2.2.1) h

/-- Orders with the same core have the same `side`. -/
theorem orderCore_side {a b : Order} (h : orderCore a = orderCore b) :
    a.side = b.side :=
  congrArg (fun t => t.2.2.2.1) h

/-- `settleChain` does not create or delete players. -/
theorem settleChain_isSome (ps : Players) (buyerId sellerId product : String)
    (quantity price : Int) (tid : String) (bo so : Order) (y : String) :
    ((settleChain ps buyerId sellerId product quantity price tid bo so) y).isSome
      = (ps y).isSome := by
  unfold settleChain
  by_cases h5 : bo.status = "filled" <;> by_cases h6 : so.status = "filled" <;>
    simp [h5, h6, updatePlayer_isSome]

/-- `executeTrade` does not create or delete players. -/
theorem executeTrade_isSome (ps : Players) (incoming resting : Order)
    (tid : String) (now : Nat) (y : String) :
    (((executeTrade ps incoming resting tid now).players) y).isSome = (ps y).isSome := by
  unfold executeTrade
  by_cases hside : incoming.side = "buy"
  · simp only [if_pos hside]
    cases ps incoming.playerId <;> cases ps resting.playerId <;>
      (repeat' split) <;> simp [settleChain_isSome]
  · simp only [if_neg hside]
    cases ps resting.playerId <;> cases ps incoming.playerId <;>
      (repeat' split) <;> simp [settleChain_isSome]

/-- `executeTrade` only changes the two orders' fill state. -/
theorem executeTrade_core (ps : Players) (incoming resting : Order)
    (tid : String) (now : Nat) :
    orderCore (executeTrade ps incoming resting tid now).incoming = orderCore incoming ∧
    orderCore (executeTrade ps incoming resting tid now).resting = orderCore resting := by
  unfold executeTrade
  by_cases hside : incoming.side = "buy"
  · simp only [if_pos hside]
    cases ps incoming.playerId <;> cases ps resting.playerId <;>
      (repeat' split) <;> constructor <;> simp [orderCore, Order.fill]
  · simp only [if_neg hside]
    cases ps resting.playerId <;> cases ps incoming.playerId <;>
      (repeat' split) <;> constructor <;> simp [orderCore, Order.fill]

/-- Across the matching loop: the incoming order keeps its identity
fields, no player appears or disappears, and a book holding only limit
orders still holds only limit orders. -/
theorem matchLoop_invariants (now : Nat) :
    ∀ (n : Nat) (s : MatchState) (ts : List Trade),
      orderCore (matchLoop now n s ts).1.incoming = orderCore s.incoming ∧
      (∀ y, (((matchLoop now n s ts).1.players) y).isSome = (s.players y).isSome) ∧
      ((∀ x ∈ s.book.bids, x.orderType = "limit") →
       (∀ x ∈ s.book.asks, x.orderType = "limit") →
       (∀ x ∈ (matchLoop now n s ts).1.book.bids, x.orderType = "limit") ∧
       (∀ x ∈ (matchLoop now n s ts).1.book.asks, x.orderType = "limit")) := by
  intro n
  induction n with
  | zero =>
    intro s ts
    exact ⟨rfl, fun y => rfl, fun hb ha => ⟨hb, ha⟩⟩
  | succ n ih =>
    intro s ts
    rw [matchLoop]
    by_cases h0 : s.incoming.remainingQuantity ≤ 0
    · rw [if_pos h0]
      exact ⟨rfl, fun y => rfl, fun hb ha => ⟨hb, ha⟩⟩
    · rw [if_neg h0]
      cases hopp : (if s.incoming.side = "buy" then s.book.getBestAsk else s.book.getBestBid) with
      | none => exact ⟨rfl, fun y => rfl, fun hb ha => ⟨hb, ha⟩⟩
      | some opp =>
        dsimp only
        by_cases hself : opp.playerId = s.incoming.playerId
        · rw [if_pos hself]
          exact ⟨rfl, fun y => rfl, fun hb ha => ⟨hb, ha⟩⟩
        · rw [if_neg hself]
          by_cases hp1 : s.incoming.orderType = "limit" ∧ s.incoming.side = "buy"
              ∧ priceVal s.incoming < priceVal opp
          · rw [if_pos hp1]
            exact ⟨rfl, fun y => rfl, fun hb ha => ⟨hb, ha⟩⟩
          · rw [if_neg hp1]
            by_cases hp2 : s.incoming.orderType = "limit" ∧ s.incoming.side = "sell"
                ∧ priceVal s.incoming > priceVal opp
            · rw [if_pos hp2]
              exact ⟨rfl, fun y => rfl, fun hb ha => ⟨hb, ha⟩⟩
            · rw [if_neg hp2]
              have hih := ih ⟨(executeTrade s.players s.incoming opp "" now).players,
                (replaceOrderInBook s.book
                  (executeTrade s.players s.incoming opp "" now).resting).cleanup,
                (executeTrade s.players s.incoming opp "" now).incoming⟩
                (match (executeTrade s.players s.incoming opp "" now).trade with
                  | some t => ts ++ [t]
                  | none => ts)
              refine ⟨hih.1.trans (executeTrade_core s.players s.incoming opp "" now).1,
                fun y => (hih.2.1 y).trans (executeTrade_isSome s.players s.incoming opp "" now y),
                ?_⟩
              intro hb ha
              have hoppmem : opp ∈ s.book.bids ∨ opp ∈ s.book.asks := by
                by_cases hside : s.incoming.side = "buy"
                · rw [if_pos hside] at hopp
                  unfold OrderBook.getBestAsk at hopp
                  rcases List.head?_eq_some_iff.mp hopp with ⟨tl, htl⟩
                  have : opp ∈ s.book.asks.filter isOpenOrder := by
                    rw [htl]; exact List.mem_cons_self opp tl
                  exact Or.inr (List.mem_filter.mp this).1
                · rw [if_neg hside] at hopp
                  unfold OrderBook.getBestBid at hopp
                  rcases List.head?_eq_some_iff.mp hopp with ⟨tl, htl⟩
                  have : opp ∈ s.book.bids.filter isOpenOrder := by
                    rw [htl]; exact List.mem_cons_self opp tl
                  exact Or.inl (List.mem_filter.mp this).1
              have hopptype : opp.orderType = "limit" := by
                rcases hoppmem with h | h
                · exact hb opp h
                · exact ha opp h
              have hresttype :
                  (executeTrade s.players s.incoming opp "" now).resting.orderType
                    = "limit" := by
                rw [orderCore_orderType (executeTrade_core s.players s.incoming opp "" now).2]
                exact hopptype
              apply hih.2.2
              · intro x hx
                rcases List.mem_map.mp (List.mem_filter.mp hx).1 with ⟨y, hy, hfy⟩
                by_cases hid : y.orderId
                    == (executeTrade s.players s.incoming opp "" now).resting.orderId
                · rw [if_pos hid] at hfy
                  rw [← hfy]
                  exact hresttype
                · rw [if_neg hid] at hfy
                  rw [← hfy]
                  exact hb y hy
              · intro x hx
                rcases List.mem_map.mp (List.mem_filter.mp hx).1 with ⟨y, hy, hfy⟩
                by_cases hid : y.orderId
                    == (executeTrade s.players s.incoming opp "" now).resting.orderId
                · rw [if_pos hid] at hfy
                  rw [← hfy]
                  exact hresttype
                · rw [if_neg hid] at hfy
                  rw [← hfy]
                  exact ha y hy

/-- `Player.addOrder` always leaves the id in the open set. -/
theorem Player.addOrder_mem (oid : String) (p : Player) :
    oid ∈ (Player.addOrder oid p).openOrderIds := by
  unfold Player.addOrder
  by_cases h : p.openOrderIds.contains oid
  · rw [if_pos h]
    simpa using h
  · rw [if_neg h]
    simp

/-- The order handed to `addOrder` rests on one of the two sides. -/
theorem addOrder_mem_self (book : OrderBook) (o : Order) :
    o ∈ (book.addOrder o).bids ∨ o ∈ (book.addOrder o).asks := by
  unfold OrderBook.addOrder
  by_cases hside : o.side = "buy"
  · rw [if_pos hside]
    left
    dsimp only
    rw [List.mem_insertionSort]
    exact List.mem_append_right _ (List.mem_singleton_self o)
  · rw [if_neg hside]
    right
    dsimp only
    rw [List.mem_insertionSort]
    exact List.mem_append_right _ (List.mem_singleton_self o)

/-- Adding a limit order to a book of limit orders keeps the book pure. -/
theorem addOrder_limit_pure (book : OrderBook) (o : Order)
    (hb : ∀ x ∈ book.bids, x.orderType = "limit")
    (ha : ∀ x ∈ book.asks, x.orderType = "limit")
    (ho : o.orderType = "limit") :
    (∀ x ∈ (book.addOrder o).bids, x.orderType = "limit") ∧
    (∀ x ∈ (book.addOrder o).asks, x.orderType = "limit") := by
  unfold OrderBook.addOrder
  by_cases hside : o.side = "buy"
  · rw [if_pos hside]
    refine ⟨?_, ha⟩
    intro x hx
    rw [List.mem_insertionSort] at hx
    rcases List.mem_append.mp hx with h | h
    · exact hb x h
    · rw [List.mem_singleton.mp h]; exact ho
  · rw [if_neg hside]
    refine ⟨hb, ?_⟩
    intro x hx
    rw [List.mem_insertionSort] at hx
    rcases List.mem_append.mp hx with h | h
    · exact ha x h
    · rw [List.mem_singleton.mp h]; exact ho

/-- A non-strict comparator step is strict once the (price, created_at)
keys differ — bids. -/
theorem bidLE_strict (a x : Order) (hle : bidLE a x)
    (hne : ¬(priceVal a = priceVal x ∧ a.createdAt = x.createdAt)) :
    strictlyBetterBid a x := by
  unfold bidLE at hle
  unfold strictlyBetterBid
  by_cases h : priceVal a = priceVal x
  · rw [if_pos h] at hle
    right
    refine ⟨h, ?_⟩
    rcases Nat.lt_or_ge a.createdAt x.createdAt with hlt | hge
    · exact hlt
    · exact absurd ⟨h, Nat.le_antisymm hle hge⟩ hne
  · rw [if_neg h] at hle
    exact Or.inl hle

/-- A non-strict comparator step is strict once the (price, created_at)
keys differ — asks. -/
theorem askLE_strict (a x : Order) (hle : askLE a x)
    (hne : ¬(priceVal a = priceVal x ∧ a.createdAt = x.createdAt)) :
    strictlyBetterAsk a x := by
  unfold askLE at hle
  unfold strictlyBetterAsk
  by_cases h : priceVal a = priceVal x
  · rw [if_pos h] at hle
    right
    refine ⟨h, ?_⟩
    rcases Nat.lt_or_ge a.createdAt x.createdAt with hlt | hge
    · exact hlt
    · exact absurd ⟨h, Nat.le_antisymm hle hge⟩ hne
  · rw [if_neg h] at hle
    exact Or.inl hle

/-- C3: `addOrder` keeps the inserted side sorted by the side's
comparator (descending price then ascending creation time for bids,
ascending price then ascending creation time for asks) and only
reorders/permutes that side; `getBestBid`/`getBestAsk` return the first
open-or-partial order and `none` exactly when no such order exists; and
in a sorted book the selected best order is strictly better, in
(price, created_at), than every other open resting order with a distinct
key — so a crossing order (which always consumes `getBestAsk`/
`getBestBid`, see `matchLoop`) executes resting orders strictly
better-first. -/
theorem C3_price_time_priority (book : OrderBook) (o b : Order) :
    (o.side = "buy" →
      List.Pairwise bidLE (book.addOrder o).bids ∧
      (book.addOrder o).bids.Perm (book.bids ++ [o]) ∧
      (book.addOrder o).asks = book.asks) ∧
    (o.side ≠ "buy" →
      List.Pairwise askLE (book.addOrder o).asks ∧
      (book.addOrder o).asks.Perm (book.asks ++ [o]) ∧
      (book.addOrder o).bids = book.bids) ∧
    (book.getBestBid = some b →
      b ∈ book.bids ∧ isOpenOrder b = true ∧
      (List.Pairwise bidLE book.bids →
        ∀ x ∈ book.bids, isOpenOrder x = true →
          ¬(priceVal b = priceVal x ∧ b.createdAt = x.createdAt) →
          strictlyBetterBid b x)) ∧
    (book.getBestAsk = some b →
      b ∈ book.asks ∧ isOpenOrder b = true ∧
      (List.Pairwise askLE book.asks →
        ∀ x ∈ book.asks, isOpenOrder x = true →
          ¬(priceVal b = priceVal x ∧ b.createdAt = x.createdAt) →
          strictlyBetterAsk b x)) ∧
    (book.getBestBid = none ↔ ∀ x ∈ book.bids, isOpenOrder x = false) ∧
    (book.getBestAsk = none ↔ ∀ x ∈ book.asks, isOpenOrder x = false) := by
  refine ⟨?_, ?_, ?_, ?_, ?_, ?_⟩
  · intro hside
    unfold OrderBook.addOrder
    rw [if_pos hside]
    exact ⟨List.sorted_insertionSort bidLE _,
      List.perm_insertionSort bidLE _, rfl⟩
  · intro hside
    unfold OrderBook.addOrder
    rw [if_neg hside]
    exact ⟨List.sorted_insertionSort askLE _,
      List.perm_insertionSort askLE _, rfl⟩
  · intro hbest
    unfold OrderBook.getBestBid at hbest
    rcases List.head?_eq_some_iff.mp hbest with ⟨tl, htl⟩
    have hbmem : b ∈ book.bids.filter isOpenOrder := by
      rw [htl]; exact List.mem_cons_self b tl
    rcases List.mem_filter.mp hbmem with ⟨hb1, hb2⟩
    refine ⟨hb1, hb2, ?_⟩
    intro hsorted x hx hxopen hkey
    have hxf : x ∈ book.bids.filter isOpenOrder := List.mem_filter.mpr ⟨hx, hxopen⟩
    have hsorted' : List.Pairwise bidLE (book.bids.filter isOpenOrder) :=
      List.Pairwise.sublist (List.filter_sublist book.bids) hsorted
    rw [htl] at hsorted' hxf
    rcases List.mem_cons.mp hxf with heq | htlmem
    · subst heq
      exact absurd ⟨rfl, rfl⟩ hkey
    · exact bidLE_strict b x ((List.pairwise_cons.mp hsorted').1 x htlmem) hkey
  · intro hbest
    unfold OrderBook.getBestAsk at hbest
    rcases List.head?_eq_some_iff.mp hbest with ⟨tl, htl⟩
    have hbmem : b ∈ book.asks.filter isOpenOrder := by
      rw [htl]; exact List.mem_cons_self b tl
    rcases List.mem_filter.mp hbmem with ⟨hb1, hb2⟩
    refine ⟨hb1, hb2, ?_⟩
    intro hsorted x hx hxopen hkey
    have hxf : x ∈ book.asks.filter isOpenOrder := List.mem_filter.mpr ⟨hx, hxopen⟩
    have hsorted' : List.Pairwise askLE (book.asks.filter isOpenOrder) :=
      List.Pairwise.sublist (List.filter_sublist book.asks) hsorted
    rw [htl] at hsorted' hxf
    rcases List.mem_cons.mp hxf with heq | htlmem
    · subst heq
      exact absurd ⟨rfl, rfl⟩ hkey
    · exact askLE_strict b x ((List.pairwise_cons.mp hsorted').1 x htlmem) hkey
  · unfold OrderBook.getBestBid
    rw [List.head?_eq_none_iff, List.filter_eq_nil_iff]
    constructor
    · intro h x hx
      simpa using h x hx
    · intro h x hx
      simp [h x hx]
  · unfold OrderBook.getBestAsk
    rw [List.head?_eq_none_iff, List.filter_eq_nil_iff]
    constructor
    · intro h x hx
      simpa using h x hx
    · intro h x hx
      simp [h x hx]

instance : DecidableRel strictlyBetterBid := fun a b => by
  unfold strictlyBetterBid; infer_instance

instance : DecidableRel strictlyBetterAsk := fun a b => by
  unfold strictlyBetterAsk; infer_instance

/-- An ask tied with `c3TieA2` on price and creation time. -/
def c3TieA1 : Order := ⟨"a1", "s1", "bread", "sell", "limit", 1, 1, some 3, "open", 5⟩

/-- An ask tied with `c3TieA1` on price and creation time. -/
def c3TieA2 : Order := ⟨"a2", "s2", "bread", "sell", "limit", 1, 1, some 3, "open", 5⟩

/-- A correctly sorted book holding the two tied asks. -/
def c3TieBook : OrderBook := ⟨"bread", [], [c3TieA1, c3TieA2]⟩

/-- C3 counterexample: with two distinct open asks tied on
(price, created_at) — possible because `createdAt` is wall-clock — the
book is sorted and `getBestAsk` picks the first, but that order is not
strictly better than the other, refuting the claim's universally
strict execution order. -/
theorem C3_tie_breaks_strictness :
    List.Pairwise askLE c3TieBook.asks ∧
    c3TieBook.getBestAsk = some c3TieA1 ∧
    isOpenOrder c3TieA2 = true ∧
    c3TieA1 ≠ c3TieA2 ∧
    ¬ strictlyBetterAsk c3TieA1 c3TieA2 := by
  refine ⟨?_, ?_, ?_, ?_, ?_⟩ <;> decide

/-- A small unsorted bid list: worse price first, and a created-at tie
at the best price. -/
def c3Book : OrderBook :=
  ⟨"bread",
   [⟨"b1", "alice", "bread", "buy", "limit", 1, 1, some 4, "open", 5⟩,
    ⟨"b2", "bob", "bread", "buy", "limit", 1, 1, some 6, "filled", 2⟩,
    ⟨"b3", "carol", "bread", "buy", "limit", 1, 1, some 6, "open", 3⟩],
   []⟩

/-- The same orders sorted by the bids comparator (a filled order at the
front, then the best open bid, then a worse-priced bid). -/
def c3Sorted : OrderBook :=
  ⟨"bread",
   [⟨"b2", "bob", "bread", "buy", "limit", 1, 1, some 6, "filled", 2⟩,
    ⟨"b3", "carol", "bread", "buy", "limit", 1, 1, some 6, "open", 3⟩,
    ⟨"b1", "alice", "bread", "buy", "limit", 1, 1, some 4, "open", 5⟩],
   []⟩

/-- Closed instantiation of `C3_price_time_priority`. -/
theorem C3_price_time_priority_witness :
    List.Pairwise bidLE
      (c3Book.addOrder ⟨"b4", "dan", "bread", "buy", "limit", 1, 1, some 5, "open", 9⟩).bids ∧
    (⟨"b3", "carol", "bread", "buy", "limit", 1, 1, some 6, "open", 3⟩ : Order) ∈ c3Sorted.bids ∧
    strictlyBetterBid ⟨"b3", "carol", "bread", "buy", "limit", 1, 1, some 6, "open", 3⟩
      ⟨"b1", "alice", "bread", "buy", "limit", 1, 1, some 4, "open", 5⟩ ∧
    (⟨"bread", [], []⟩ : OrderBook).getBestBid = none := by
  have h1 := (C3_price_time_priority c3Book
    ⟨"b4", "dan", "bread", "buy", "limit", 1, 1, some 5, "open", 9⟩
    ⟨"b3", "carol", "bread", "buy", "limit", 1, 1, some 6, "open", 3⟩).1 rfl
  have h3 := (C3_price_time_priority c3Sorted
    ⟨"b4", "dan", "bread", "buy", "limit", 1, 1, some 5, "open", 9⟩
    ⟨"b3", "carol", "bread", "buy", "limit", 1, 1, some 6, "open", 3⟩).2.2.1 (by decide)
  have h4 := (C3_price_time_priority (⟨"bread", [], []⟩ : OrderBook)
    ⟨"b4", "dan", "bread", "buy", "limit", 1, 1, some 5, "open", 9⟩
    ⟨"b3", "carol", "bread", "buy", "limit", 1, 1, some 6, "open", 3⟩).2.2.2.2.1.mpr
    (by intro x hx; cases hx)
  exact ⟨h1.1, h3.1,
    h3.2.2 (by decide) ⟨"b1", "alice", "bread", "buy", "limit", 1, 1, some 4, "open", 5⟩
      (by decide) (by decide) (by decide), h4⟩

/-- C6: when `submitOrder` returns with leftover quantity, a limit order
rests at its own price and is added to the submitter's open-order set;
a market order is first converted to an aggressive limit (price 999999
for a buy, 1 for a sell) and then rested and added to the open-order
set; and a book holding only limit orders still holds only limit orders
after the call. -/
theorem C6_market_remainder_rests (cfg : Config) (fuel : Nat) (ps : Players)
    (book : OrderBook) (playerId product side orderType : String) (quantity : Int)
    (price : Option Int) (newOrderId : String) (now : Nat) (res : SubmitResult)
    (hres : submitOrder cfg fuel ps book playerId product side orderType quantity price
        newOrderId now = some res) :
    (∀ o, res.order = some o → 0 < o.remainingQuantity → orderType = "limit" →
      o.orderType = "limit" ∧ o.price = price ∧
      (o ∈ res.book.bids ∨ o ∈ res.book.asks) ∧
      ∃ p', res.players playerId = some p' ∧ o.orderId ∈ p'.openOrderIds) ∧
    (∀ o, res.order = some o → 0 < o.remainingQuantity → orderType = "market" →
      o.orderType = "limit" ∧ o.price = some (if side = "buy" then 999999 else 1) ∧
      (o ∈ res.book.bids ∨ o ∈ res.book.asks) ∧
      ∃ p', res.players playerId = some p' ∧ o.orderId ∈ p'.openOrderIds) ∧
    ((∀ x ∈ book.bids, x.orderType = "limit") →
     (∀ x ∈ book.asks, x.orderType = "limit") →
     (∀ x ∈ res.book.bids, x.orderType = "limit") ∧
     (∀ x ∈ res.book.asks, x.orderType = "limit")) := by
  unfold submitOrder at hres
  cases hp : ps playerId with
  | none => rw [hp] at hres; exact absurd hres (by simp)
  | some player =>
    rw [hp] at hres
    dsimp only at hres
    by_cases h1 : ¬ (product ∈ cfg.products)
    · rw [if_pos h1] at hres
      injection hres with heq
      subst heq
      exact ⟨fun o ho => absurd ho (by simp), fun o ho => absurd ho (by simp),
        fun hb ha => ⟨hb, ha⟩⟩
    · rw [if_neg h1] at hres
      by_cases h2 : quantity < cfg.minOrderSize ∨ quantity > cfg.maxOrderSize
      · rw [if_pos h2] at hres
        injection hres with heq
        subst heq
        exact ⟨fun o ho => absurd ho (by simp), fun o ho => absurd ho (by simp),
          fun hb ha => ⟨hb, ha⟩⟩
      · rw [if_neg h2] at hres
        by_cases h3 : orderType = "limit" ∧ (price.isNone ∨ price.getD 0 ≤ 0)
        · rw [if_pos h3] at hres
          injection hres with heq
          subst heq
          exact ⟨fun o ho => absurd ho (by simp), fun o ho => absurd ho (by simp),
            fun hb ha => ⟨hb, ha⟩⟩
        · rw [if_neg h3] at hres
          by_cases h4 : side = "buy" ∧ player.cash < requiredCashFor book orderType quantity price
          · rw [if_pos h4] at hres
            injection hres with heq
            subst heq
            exact ⟨fun o ho => absurd ho (by simp), fun o ho => absurd ho (by simp),
              fun hb ha => ⟨hb, ha⟩⟩
          · rw [if_neg h4] at hres
            by_cases h5 : side ≠ "buy" ∧ objGet player.inventory product < quantity
            · rw [if_pos h5] at hres
              injection hres with heq
              subst heq
              exact ⟨fun o ho => absurd ho (by simp), fun o ho => absurd ho (by simp),
                fun hb ha => ⟨hb, ha⟩⟩
            · rw [if_neg h5] at hres
              have hinv := matchLoop_invariants now fuel
                ⟨ps, book, Order.create newOrderId playerId product side orderType
                  quantity price now⟩ []
              cases hml : matchLoop now fuel
                  ⟨ps, book, Order.create newOrderId playerId product side orderType
                    quantity price now⟩ [] with
              | mk s rest =>
                cases rest with
                | mk trades flag =>
                  rw [hml] at hres hinv
                  dsimp only at hres hinv
                  cases flag with
                  | false => exact absurd hres (by simp)
                  | true =>
                    dsimp only at hres
                    have hcore : orderCore s.incoming
                        = orderCore (Order.create newOrderId playerId product side
                          orderType quantity price now) := hinv.1
                    have hsome : (s.players playerId).isSome = true := by
                      rw [hinv.2.1 playerId, hp]; rfl
                    rcases Option.isSome_iff_exists.mp hsome with ⟨p0, hp0⟩
                    by_cases hA : s.incoming.remainingQuantity > 0 ∧ orderType = "limit"
                    · rw [if_pos hA] at hres
                      injection hres with heq
                      subst heq
                      refine ⟨?_, ?_, ?_⟩
                      · intro o ho hrem hlim
                        have ho' : s.incoming = o := by simpa using ho
                        subst ho'
                        refine ⟨?_, ?_, addOrder_mem_self s.book s.incoming, ?_⟩
                        · rw [orderCore_orderType hcore]; exact hlim
                        · rw [orderCore_price hcore]; rfl
                        · refine ⟨Player.addOrder s.incoming.orderId p0, ?_,
                            Player.addOrder_mem _ _⟩
                          show updatePlayer s.players playerId
                            (Player.addOrder s.incoming.orderId) playerId = some _
                          rw [updatePlayer_same, hp0]
                          rfl
                      · intro o ho hrem hmkt
                        rw [hA.2] at hmkt
                        exact absurd hmkt (by decide)
                      · intro hb ha
                        have hpure := hinv.2.2 hb ha
                        exact addOrder_limit_pure s.book s.incoming hpure.1 hpure.2
                          (by rw [orderCore_orderType hcore]; exact hA.2)
                    · rw [if_neg hA] at hres
                      by_cases hB : s.incoming.remainingQuantity > 0 ∧ orderType = "market"
                      · rw [if_pos hB] at hres
                        injection hres with heq
                        subst heq
                        refine ⟨?_, ?_, ?_⟩
                        · intro o ho hrem hlim
                          rw [hB.2] at hlim
                          exact absurd hlim (by decide)
                        · intro o ho hrem hmkt
                          have ho' : ({ s.incoming with
                              price := some (if side = "buy" then 999999 else 1),
                              orderType := "limit" } : Order) = o := by simpa using ho
                          subst ho'
                          refine ⟨rfl, rfl, ?_, ?_⟩
                          · exact addOrder_mem_self s.book _
                          · refine ⟨Player.addOrder s.incoming.orderId p0, ?_,
                              Player.addOrder_mem _ _⟩
                            show updatePlayer s.players playerId
                              (Player.addOrder s.incoming.orderId) playerId = some _
                            rw [updatePlayer_same, hp0]
                            rfl
                        · intro hb ha
                          have hpure := hinv.2.2 hb ha
                          exact addOrder_limit_pure s.book _ hpure.1 hpure.2 rfl
                      · rw [if_neg hB] at hres
                        injection hres with heq
                        subst heq
                        refine ⟨?_, ?_, ?_⟩
                        · intro o ho hrem hlim
                          have ho' : s.incoming = o := by simpa using ho
                          subst ho'
                          exact absurd ⟨hrem, hlim⟩ hA
                        · intro o ho hrem hmkt
                          have ho' : s.incoming = o := by simpa using ho
                          subst ho'
                          exact absurd ⟨hrem, hmkt⟩ hB
                        · intro hb ha
                          exact hinv.2.2 hb ha

/-- A lone player with cash only. -/
def c6Players : Players := fun pid =>
  if pid = "alice" then some ⟨"alice", 100, [], [], []⟩ else none

/-- An empty bread book. -/
def c6Book : OrderBook := ⟨"bread", [], []⟩

/-- The limit order that rests on the empty book. -/
def c6Order : Order := Order.create "o9" "alice" "bread" "buy" "limit" 2 (some 3) 4

/-- What `submitOrder` returns for the resting limit submission. -/
def c6Res : SubmitResult :=
  ⟨some c6Order, [], [], updatePlayer c6Players "alice" (Player.addOrder "o9"),
   c6Book.addOrder c6Order⟩

/-- A lone player holding bread, for the market-sell case. -/
def c6MPlayers : Players := fun pid =>
  if pid = "alice" then some ⟨"alice", 100, [("bread", 5)], [], []⟩ else none

/-- The market sell after its conversion to an aggressive limit. -/
def c6MOrder : Order :=
  { Order.create "o8" "alice" "bread" "sell" "market" 2 none 4 with
    price := some 1, orderType := "limit" }

/-- What `submitOrder` returns for the market submission with no
liquidity. -/
def c6MRes : SubmitResult :=
  ⟨some c6MOrder, [], [], updatePlayer c6MPlayers "alice" (Player.addOrder "o8"),
   c6Book.addOrder c6MOrder⟩

/-- Closed instantiation of `C6_market_remainder_rests`. -/
theorem C6_market_remainder_rests_witness :
    c6Order.orderType = "limit" ∧ c6Order.price = some 3 ∧
    (c6Order ∈ c6Res.book.bids ∨ c6Order ∈ c6Res.book.asks) ∧
    (∃ p', c6Res.players "alice" = some p' ∧ c6Order.orderId ∈ p'.openOrderIds) ∧
    c6MOrder.orderType = "limit" ∧ c6MOrder.price = some 1 ∧
    (c6MOrder ∈ c6MRes.book.bids ∨ c6MOrder ∈ c6MRes.book.asks) ∧
    (∃ p', c6MRes.players "alice" = some p' ∧ c6MOrder.orderId ∈ p'.openOrderIds) := by
  have h1 := (C6_market_remainder_rests ⟨["bread"], 1, 100⟩ 5 c6Players c6Book "alice"
    "bread" "buy" "limit" 2 (some 3) "o9" 4 c6Res rfl).1 c6Order rfl (by decide) rfl
  have h2 := (C6_market_remainder_rests ⟨["bread"], 1, 100⟩ 5 c6MPlayers c6Book "alice"
    "bread" "sell" "market" 2 none "o8" 4 c6MRes rfl).2.1 c6MOrder rfl (by decide) rfl
  exact ⟨h1.1, h1.2.1, h1.2.2.1, h1.2.2.2, h2.1, h2.2.1.trans (by decide),
    h2.2.2.1, h2.2.2.2⟩

/-- Buyer with ample cash and seller with ample bread. -/
def c2Players : Players := fun pid =>
  if pid = "alice" then some ⟨"alice", 100, [("bread", 0)], [], []⟩
  else if pid = "bob" then some ⟨"bob", 10, [("bread", 5)], ["a2"], []⟩
  else none

/-- An incoming buy crossing `c2Resting`. -/
def c2Incoming : Order := ⟨"b1", "alice", "bread", "buy", "limit", 2, 2, some 3, "open", 1⟩

/-- Bob's resting ask. -/
def c2Resting : Order := ⟨"a2", "bob", "bread", "sell", "limit", 5, 5, some 3, "open", 0⟩

/-- The trade `executeTrade` produces on the `c2` inputs. -/
def c2Trade : Trade := ⟨"t1", "b1", "a2", "alice", "bob", "bread", 2, 3, 6, 7⟩

/-- Closed instantiation of `C2_trade_settlement`. -/
theorem C2_trade_settlement_witness :
    c2Trade.quantity = min c2Incoming.remainingQuantity c2Resting.remainingQuantity ∧
    c2Trade.price = priceVal c2Resting ∧
    sumOver (executeTrade c2Players c2Incoming c2Resting "t1" 7).players ["alice", "bob"]
        Player.cash
      = sumOver c2Players ["alice", "bob"] Player.cash ∧
    sumOver (executeTrade c2Players c2Incoming c2Resting "t1" 7).players ["alice", "bob"]
        (fun pl => objGet pl.inventory "bread")
      = sumOver c2Players ["alice", "bob"] (fun pl => objGet pl.inventory "bread") := by
  have h := C2_trade_settlement c2Players c2Incoming c2Resting "t1" 7 c2Trade (by decide)
  exact ⟨h.1, h.2.1,
    h.2.2.2.2.1 ["alice", "bob"] (by decide) (by decide) (by decide),
    h.2.2.2.2.2 ["alice", "bob"] "bread" (by decide) (by decide) (by decide)⟩

/-- C4: if the best opposing resting order belongs to the submitter, the
matching loop halts immediately for that submission — no trade, no state
change, no skipping to the next level; consequently no trade produced by
the loop has equal buyer and seller ids. -/
theorem C4_self_trade_prevention (now n : Nat) (s : MatchState) (ts : List Trade)
    (opp : Order) (t : Trade) :
    (0 < s.incoming.remainingQuantity →
      (if s.incoming.side = "buy" then s.book.getBestAsk else s.book.getBestBid) = some opp →
      opp.playerId = s.incoming.playerId →
      matchLoop now (n + 1) s ts = (s, ts, true)) ∧
    (t ∈ (matchLoop now n s []).2.1 → t.buyerId ≠ t.sellerId) := by
  constructor
  · intro hrem hopp hself
    rw [matchLoop, if_neg (by omega), hopp]
    dsimp only
    rw [if_pos hself]
  · intro ht
    rcases matchLoop_trades_no_self now n s [] t ht with hmem | hne
    · exact absurd hmem (List.not_mem_nil t)
    · exact hne

/-- Alice's own resting ask, then Alice submits a crossing buy. -/
def c4SelfAsk : Order := ⟨"a1", "alice", "bread", "sell", "limit", 2, 2, some 3, "open", 0⟩

/-- Match state where the best opposing order is the submitter's own. -/
def c4SelfState : MatchState :=
  ⟨fun _ => none, ⟨"bread", [], [c4SelfAsk]⟩,
   ⟨"b1", "alice", "bread", "buy", "limit", 2, 2, some 5, "open", 1⟩⟩

/-- Match state with a genuine cross between alice and bob. -/
def c4CrossState : MatchState := ⟨c2Players, ⟨"bread", [], [c2Resting]⟩, c2Incoming⟩

/-- The trade the loop produces on `c4CrossState` (the loop passes an
empty trade id). -/
def c4Trade : Trade := ⟨"", "b1", "a2", "alice", "bob", "bread", 2, 3, 6, 7⟩

/-- Closed instantiation of `C4_self_trade_prevention`. -/
theorem C4_self_trade_prevention_witness :
    matchLoop 7 3 c4SelfState [] = (c4SelfState, [], true) ∧
    c4Trade.buyerId ≠ c4Trade.sellerId := by
  have h1 := (C4_self_trade_prevention 7 2 c4SelfState [] c4SelfAsk c4Trade).1
    (by decide) (by decide) (by decide)
  have h2 := (C4_self_trade_prevention 7 2 c4CrossState [] c4SelfAsk c4Trade).2 (by decide)
  exact ⟨h1, h2⟩

end SimX
